import Mathlib

/-!
# hsetroot: multi-output image placement

A shallow embedding of `src/hsetroot.c` (`load_image` and the parts of `main`
that build the canvas, the output topology and the command loop), followed by
theorems about the placement geometry.

Modelling conventions.

* C `int` values are unbounded `Int`; the results hold wherever the C
  arithmetic does not overflow (Imlib2 limits image sides to 32767 and the
  Xinerama geometry fields are 16 bit, which keeps every product below 2^31).
* A `double` is an IEEE 754 binary64 value `m * 2^e` (`Double`); a quotient
  or product is rounded once, to the nearest value with a 53-bit significand,
  ties to even (`roundRatio`), and the `(int)` cast truncates toward zero
  (`Double.toInt`).  Overflow, subnormals, infinities and NaN are left out:
  the quantities at hand are pixel counts and their ratios.  A division by 0
  (an image of width or height 0, which Imlib2 does not produce) is not
  meaningful in the model.
* `chooseAspectExact` and `scaledRectExact` read the same lines in exact
  rational arithmetic, for comparison.
* C integer division `/` is `Int.tdiv` (truncation toward zero).
* Calls into Imlib2 are recorded, in call order, as a list of `Op`s (the
  trace).  The canvas and the decoded image change only through those calls.
* Loops carry a fuel argument, computed from the loop bounds; a loop that runs
  out of fuel yields `none`.  The fuel is enough whenever the C loop ends: the
  doubling loops always end, and the tiling loops end exactly when they are
  not entered or the image side they step by is positive.
* Output to `stdout` (`printf`, `usage`) is not recorded.
-/

namespace Hsetroot

/-! ## Data model -/

/-- The C enum `ImageMode`. -/
inductive ImageMode where
  | Full | Fill | Center | Tile | Xtend | Cover
  deriving DecidableEq, Repr

/-- Global `int offset = 50;`. -/
def offset : Int := 50

/-- The geometry fields of `XineramaScreenInfo` (the unused `screen_number`
field is left out). -/
structure XineramaScreenInfo where
  x_org : Int
  y_org : Int
  width : Int
  height : Int
  deriving DecidableEq, Repr

/-- The C type `DATA8` (an unsigned byte). -/
abbrev DATA8 := Fin 256

/-- A lookup table `DATA8 t[256]`. -/
abbrev Table := Fin 256 → DATA8

/-- The four tables of an Imlib2 colour modifier. -/
structure Tables where
  red : Table
  green : Table
  blue : Table
  alph : Table

/-- Which image the Imlib2 context currently points at. -/
inductive ImgRef where
  | buffer | rootimg
  deriving DecidableEq, Repr

/-- One recorded Imlib2 call. -/
inductive Op where
  /-- The call `imlib_context_set_image(img)`. -/
  | context_set_image (img : ImgRef)
  /-- The call `imlib_image_set_has_alpha(flag)`. -/
  | image_set_has_alpha (flag : Int)
  /-- The calls `imlib_create_color_modifier()` and
  `imlib_context_set_color_modifier(modifier)`. -/
  | create_color_modifier
  /-- The call `imlib_set_color_modifier_tables(red, green, blue, alph)`. -/
  | set_color_modifier_tables (t : Tables)
  /-- The call `imlib_apply_color_modifier()`. -/
  | apply_color_modifier
  /-- The call `imlib_free_color_modifier()`. -/
  | free_color_modifier
  /-- The call `imlib_blend_image_onto_image(buffer, 0, sx, sy, sw, sh, dx, dy, dw, dh)`. -/
  | blend (sx sy sw sh dx dy dw dh : Int)
  /-- The call `imlib_image_copy_rect(x, y, w, h, nx, ny)`. -/
  | copy_rect (x y w h nx ny : Int)
  /-- The call `imlib_context_set_color(r, g, b, a)`. -/
  | context_set_color (r g b a : Int)
  /-- The call `imlib_image_fill_rectangle(x, y, w, h)`. -/
  | image_fill_rectangle (x y w h : Int)
  /-- The call `imlib_free_image()`. -/
  | free_image
  /-- The call `imlib_create_image(width, height)`. -/
  | create_image (width height : Int)
  /-- The call `imlib_free_color_range()`. -/
  | free_color_range

/-! ## Numeric helpers -/

/-- A finite `double`: the value `m * 2^e`. -/
structure Double where
  m : Int
  e : Int

/-- The loop behind `ilog2`: halve until below 2. -/
def ilog2Loop : Nat → Nat → Nat
  | 0, _ => 0
  | fuel + 1, n => if n < 2 then 0 else ilog2Loop fuel (n / 2) + 1

/-- The position of the leading bit of `n`: the largest `k` with `2^k <= n`
(0 for `n = 0`). -/
def ilog2 (n : Nat) : Nat := ilog2Loop n n

/-- The ratio `a / b` (`b > 0`) rounded to the nearest value `q * 2^k` with a
53-bit significand `2^52 <= q <= 2^53`, ties to the even significand: the
rounding IEEE 754 binary64 applies to every quotient and product.  The result
is the pair `(q, k)`; `(0, 0)` for `a = 0`. -/
def roundRatio (a b : Nat) : Nat × Int :=
  if a = 0 then (0, 0) else
  let s0 : Int := 52 - ((ilog2 a : Int) - (ilog2 b : Int))
  let n0 : Nat := if 0 ≤ s0 then a * 2 ^ s0.toNat else a
  let d : Nat := if 0 ≤ s0 then b else b * 2 ^ (-s0).toNat
  let s : Int := if n0 / d < 2 ^ 52 then s0 + 1 else s0
  let n : Nat := if n0 / d < 2 ^ 52 then 2 * n0 else n0
  let q := n / d
  let r := n % d
  (if 2 * r > d ∨ (2 * r = d ∧ q % 2 = 1) then q + 1 else q, -s)

/-- The conversion `(double) n` of an `int` (exact below `2^53`). -/
def Double.ofInt (n : Int) : Double :=
  ⟨Int.sign n * ((roundRatio n.natAbs 1).1 : Int), (roundRatio n.natAbs 1).2⟩

/-- The quotient `x / y` of two `double`s. -/
def Double.div (x y : Double) : Double :=
  ⟨Int.sign x.m * Int.sign y.m * ((roundRatio x.m.natAbs y.m.natAbs).1 : Int),
    (roundRatio x.m.natAbs y.m.natAbs).2 + x.e - y.e⟩

/-- The product `x * y` of two `double`s. -/
def Double.mul (x y : Double) : Double :=
  ⟨Int.sign x.m * Int.sign y.m * ((roundRatio (x.m.natAbs * y.m.natAbs) 1).1 : Int),
    (roundRatio (x.m.natAbs * y.m.natAbs) 1).2 + x.e + y.e⟩

/-- The C cast `(int) x` of a `double`: truncation toward zero. -/
def Double.toInt (x : Double) : Int :=
  if 0 ≤ x.e then x.m * 2 ^ x.e.toNat else Int.tdiv x.m (2 ^ (-x.e).toNat)

/-- The C cast `(int) q` read on an exact rational `q`: truncation toward
zero. -/
def castInt (q : ℚ) : Int := if 0 ≤ q then ⌊q⌋ else ⌈q⌉

/-- The C cast `(DATA8) alpha` of an `int`. -/
def castDATA8 (alpha : Int) : DATA8 := ⟨(alpha % 256).toNat, by omega⟩

/-! ## `load_image`: the alpha-override mask (lines 130-144) -/

/-- The loop `for (o = 0; o < 256; o++) alph[o] = (DATA8) alpha;`. -/
def fillAlph (alpha : Int) : Nat → Nat → Table → Table
  | 0, _, alph => alph
  | fuel + 1, o, alph =>
    if h : o < 256 then fillAlph alpha fuel (o + 1) (Function.update alph ⟨o, h⟩ (castDATA8 alpha))
    else alph

/-- The tables handed to `imlib_set_color_modifier_tables`: `red`, `green`,
`blue` and `alph` are read from the fresh modifier (`fresh`), then every entry
of `alph` is overwritten. -/
def maskTables (fresh : Tables) (alpha : Int) : Tables :=
  { red := fresh.red, green := fresh.green, blue := fresh.blue,
    alph := fillAlph alpha 256 0 fresh.alph }

/-- The block `if (alpha < 255) { ... }`. -/
def alphaMask (fresh : Tables) (alpha : Int) : List Op :=
  if alpha < 255 then
    [Op.image_set_has_alpha 1, Op.create_color_modifier,
     Op.set_color_modifier_tables (maskTables fresh alpha),
     Op.apply_color_modifier, Op.free_color_modifier]
  else []

/-! ## `load_image`: aspect-preserving placement (lines 156-164) -/

/-- The scale factor chosen at lines 157-159 for the padded output size
`W x H`; `cover` is `mode == Cover`. -/
def chooseAspect (cover : Bool) (imgW imgH W H : Int) : Double :=
  let aspect := Double.div (Double.ofInt W) (Double.ofInt imgW)
  if (decide (Double.toInt (Double.mul (Double.ofInt imgH) aspect) > H)) != cover then
    Double.div (Double.ofInt H) (Double.ofInt imgH)
  else aspect

/-- The destination rectangle `(left, top, w, h)` of lines 161-164, relative to
the output origin. -/
def scaledRect (cover : Bool) (imgW imgH W H : Int) : Int × Int × Int × Int :=
  let aspect := chooseAspect cover imgW imgH W H
  let top := Int.tdiv (H - Double.toInt (Double.mul (Double.ofInt imgH) aspect)) 2
  let left := Int.tdiv (W - Double.toInt (Double.mul (Double.ofInt imgW) aspect)) 2
  (left, top, Double.toInt (Double.mul (Double.ofInt imgW) aspect),
    Double.toInt (Double.mul (Double.ofInt imgH) aspect))

/-- Lines 157-159 read in exact rational arithmetic: no rounding of the
quotient or of the product. -/
def chooseAspectExact (cover : Bool) (imgW imgH W H : Int) : ℚ :=
  let aspect : ℚ := (W : ℚ) / (imgW : ℚ)
  if (decide (castInt ((imgH : ℚ) * aspect) > H)) != cover then
    (H : ℚ) / (imgH : ℚ)
  else aspect

/-- Lines 161-164 read in exact rational arithmetic. -/
def scaledRectExact (cover : Bool) (imgW imgH W H : Int) : Int × Int × Int × Int :=
  let aspect := chooseAspectExact cover imgW imgH W H
  let top := Int.tdiv (H - castInt ((imgH : ℚ) * aspect)) 2
  let left := Int.tdiv (W - castInt ((imgW : ℚ) * aspect)) 2
  (left, top, castInt ((imgW : ℚ) * aspect), castInt ((imgH : ℚ) * aspect))

/-! ## `load_image`: border extension (lines 166-185) -/

/-- The loop `for (w = 1; right + w < o.width; w <<= 1)` with its two
`imlib_image_copy_rect` calls; `w <<= 1` doubles `w`. -/
def extendCols (o : XineramaScreenInfo) (left right : Int) : Nat → Int → Option (List Op)
  | 0, _ => none
  | fuel + 1, w =>
    if right + w < o.width then
      (extendCols o left right fuel (w * 2)).map fun rest =>
        Op.copy_rect (o.x_org + left + 1 - w) o.y_org w o.height (o.x_org + left + 1 - w - w) o.y_org ::
        Op.copy_rect (o.x_org + right) o.y_org w o.height (o.x_org + right + w) o.y_org :: rest
    else some []

/-- The loop `for (w = 1; (bottom + w < o.height); w <<= 1)`. -/
def extendRows (o : XineramaScreenInfo) (top bottom : Int) : Nat → Int → Option (List Op)
  | 0, _ => none
  | fuel + 1, w =>
    if bottom + w < o.height then
      (extendRows o top bottom fuel (w * 2)).map fun rest =>
        Op.copy_rect o.x_org (o.y_org + top + 1 - w) o.width w o.x_org (o.y_org + top + 1 - w - w) ::
        Op.copy_rect o.x_org (o.y_org + bottom) o.width w o.x_org (o.y_org + bottom + w) :: rest
    else some []

/-- The block `if (left > 0) { ... }` of the `Xtend` branch; `iw` is
`(int) (imgW * aspect)`. -/
def extendH (o : XineramaScreenInfo) (left iw : Int) : Option (List Op) :=
  if left > 0 then
    let right := left - 1 + iw
    extendCols o left right ((o.width - right).toNat + 1) 1
  else some []

/-- The block `if (top > 0) { ... }` of the `Xtend` branch; `ih` is
`(int) (imgH * aspect)`. -/
def extendV (o : XineramaScreenInfo) (top ih : Int) : Option (List Op) :=
  if top > 0 then
    let bottom := top - 1 + ih
    extendRows o top bottom ((o.height - bottom).toNat + 1) 1
  else some []

/-! ## `load_image`: centring and tiling (lines 186-201) -/

/-- The loops `for (; left > 0; left -= imgW);` and
`for (; top > 0; top -= imgH);`. -/
def tileStartLoop : Nat → Int → Int → Option Int
  | 0, _, _ => none
  | fuel + 1, left, imgW =>
    if left > 0 then tileStartLoop fuel (left - imgW) imgW else some left

/-- The tile phase on one axis. -/
def tileStart (left imgW : Int) : Option Int :=
  tileStartLoop (left.toNat + 1) left imgW

/-- The inner loop `for (y = top; y < o.height; y += imgH)` at column `x`. -/
def tileRows (o : XineramaScreenInfo) (imgW imgH x : Int) : Nat → Int → Option (List Op)
  | 0, _ => none
  | fuel + 1, y =>
    if y < o.height then
      (tileRows o imgW imgH x fuel (y + imgH)).map fun rest =>
        Op.blend 0 0 imgW imgH (o.x_org + x) (o.y_org + y) imgW imgH :: rest
    else some []

/-- The outer loop `for (x = left; x < o.width; x += imgW)`. -/
def tileCols (o : XineramaScreenInfo) (imgW imgH top : Int) : Nat → Int → Option (List Op)
  | 0, _ => none
  | fuel + 1, x =>
    if x < o.width then
      match tileRows o imgW imgH x ((o.height - top).toNat + 1) top with
      | none => none
      | some col => (tileCols o imgW imgH top fuel (x + imgW)).map fun rest => col ++ rest
    else some []

/-- The `Tile` branch (lines 191-197) for the padded output `o`. -/
def tileOps (o : XineramaScreenInfo) (imgW imgH : Int) : Option (List Op) :=
  match tileStart (Int.tdiv (o.width - imgW) 2) imgW with
  | none => none
  | some left =>
    match tileStart (Int.tdiv (o.height - imgH) 2) imgH with
    | none => none
    | some top => tileCols o imgW imgH top ((o.width - left).toNat + 1) left

/-! ## `load_image` -/

/-- The local copy `o` of `outputs[i]` after `o.width += offset;` and
`o.height += offset;` (lines 149-151). -/
def padOutput (o : XineramaScreenInfo) : XineramaScreenInfo :=
  { o with width := o.width + offset, height := o.height + offset }

/-- The mode dispatch of lines 154-201 for the padded output `o`. -/
def placeOps (mode : ImageMode) (imgW imgH : Int) (o : XineramaScreenInfo) : Option (List Op) :=
  if mode = ImageMode.Fill then
    some [Op.blend 0 0 imgW imgH o.x_org o.y_org o.width o.height]
  else if mode = ImageMode.Full ∨ mode = ImageMode.Xtend ∨ mode = ImageMode.Cover then
    match scaledRect (decide (mode = ImageMode.Cover)) imgW imgH o.width o.height with
    | (left, top, iw, ih) =>
      if mode = ImageMode.Xtend then
        match extendH o left iw with
        | none => none
        | some hs =>
          match extendV o top ih with
          | none => none
          | some vs =>
            some (Op.blend 0 0 imgW imgH (o.x_org + left) (o.y_org + top) iw ih :: (hs ++ vs))
      else some [Op.blend 0 0 imgW imgH (o.x_org + left) (o.y_org + top) iw ih]
  else if mode = ImageMode.Tile then
    tileOps o imgW imgH
  else
    some [Op.blend 0 0 imgW imgH (o.x_org + Int.tdiv (o.width - imgW) 2)
      (o.y_org + Int.tdiv (o.height - imgH) 2) imgW imgH]

/-- The loop `for (int i = 0; i < noutputs; i++)` of lines 148-202. -/
def outputsLoop (mode : ImageMode) (imgW imgH : Int) : List XineramaScreenInfo → Option (List Op)
  | [] => some []
  | o :: rest =>
    match placeOps mode imgW imgH (padOutput o) with
    | none => none
    | some ops => (outputsLoop mode imgW imgH rest).map fun more => ops ++ more

/-- The function `load_image`.  `loader arg` is the outcome of
`imlib_load_image(arg)`: `none` for a null image, else the decoded size
`(imgW, imgH)`; `fresh` holds the tables of a newly created colour modifier.
The result is the return value and the trace of Imlib2 calls; `none` means
that a loop did not terminate. -/
def load_image (loader : String → Option (Int × Int)) (fresh : Tables) (mode : ImageMode)
    (arg : String) (alpha : Int) (outputs : List XineramaScreenInfo) : Option (Int × List Op) :=
  match loader arg with
  | none => some (0, [])
  | some (imgW, imgH) =>
    match outputsLoop mode imgW imgH outputs with
    | none => none
    | some ops =>
      some (1, Op.context_set_image ImgRef.buffer :: alphaMask fresh alpha ++
        Op.context_set_image ImgRef.rootimg :: ops ++
        [Op.context_set_image ImgRef.buffer, Op.free_image, Op.context_set_image ImgRef.rootimg])

/-! ## `main` -/

/-- The C struct `Color`. -/
structure Color where
  r : Int
  g : Int
  b : Int
  a : Int

/-- What `main` gets from outside the program: the image decoder, the tables
of a new colour modifier, the outcome of `parse_color(arg, &c, alpha)` (`none`
when it returns 0) and of `sscanf(arg, "%i", &alpha)` (`none` when it returns
0). -/
structure Env where
  loader : String → Option (Int × Int)
  fresh : Tables
  parse_color : String → Int → Option Color
  scan_int : String → Option Int

/-- The part of the state of `main` that the command loop changes. -/
structure RenderState where
  /-- The variable `alpha`. -/
  alpha : Int
  /-- Whether `modifier != NULL`. -/
  modifier : Bool
  /-- The Imlib2 calls made so far. -/
  trace : List Op
  /-- The lines written to `stderr` so far. -/
  stderr : List String

/-- The outcome of one pass of the command loop body: go on after consuming
`used` further entries of `argv`, call `exit(code)`, or never return. -/
inductive Step where
  | next (used : Nat) (s : RenderState)
  | exit (code : Int) (s : RenderState)
  | diverge

/-- The outcome of the command loop. -/
inductive Outcome where
  | done (s : RenderState)
  | exit (code : Int) (s : RenderState)
  | diverge

/-- Lines 313-318: the colour modifier handling at the top of the loop body. -/
def loopHead (s : RenderState) : RenderState :=
  { s with
    modifier := true
    trace := s.trace ++ (if s.modifier then [Op.apply_color_modifier, Op.free_color_modifier] else [])
      ++ [Op.create_color_modifier] }

/-- One image command of `main` (for instance lines 341-349): `rest` holds the
entries of `argv` after the flag. -/
def imageCommand (env : Env) (outputs : List XineramaScreenInfo) (mode : ImageMode)
    (rest : List String) (s : RenderState) : Step :=
  match rest with
  | [] => Step.next 1 { s with stderr := s.stderr ++ ["Missing image\n"] }
  | arg :: _ =>
    match load_image env.loader env.fresh mode arg s.alpha outputs with
    | none => Step.diverge
    | some (ret, ops) =>
      if ret = 0 then
        Step.next 1 { s with trace := s.trace ++ ops, stderr := s.stderr ++ ["Bad image (" ++ arg ++ ")\n"] }
      else Step.next 1 { s with trace := s.trace ++ ops }

/-- The command dispatch of lines 320-411 for the flag `flag`; `width` and
`height` are the canvas size. -/
def command (env : Env) (outputs : List XineramaScreenInfo) (width height : Int)
    (flag : String) (rest : List String) (s : RenderState) : Step :=
  if flag = "-alpha" then
    match rest with
    | [] => Step.next 1 { s with stderr := s.stderr ++ ["Missing alpha\n"] }
    | arg :: _ =>
      match env.scan_int arg with
      | none => Step.next 1 { s with stderr := s.stderr ++ ["Bad alpha (" ++ arg ++ ")\n"] }
      | some a => Step.next 1 { s with alpha := a }
  else if flag = "-solid" then
    match rest with
    | [] => Step.next 1 { s with stderr := s.stderr ++ ["Missing color\n"] }
    | arg :: _ =>
      match env.parse_color arg s.alpha with
      | none => Step.next 1 { s with stderr := s.stderr ++ ["Bad color (" ++ arg ++ ")\n"] }
      | some c =>
        Step.next 1 { s with trace := s.trace ++
          [Op.context_set_color c.r c.g c.b c.a, Op.image_fill_rectangle 0 0 width height] }
  else if flag = "-fill" then imageCommand env outputs ImageMode.Fill rest s
  else if flag = "-full" then imageCommand env outputs ImageMode.Full rest s
  else if flag = "-extend" then imageCommand env outputs ImageMode.Xtend rest s
  else if flag = "-tile" then imageCommand env outputs ImageMode.Tile rest s
  else if flag = "-center" then imageCommand env outputs ImageMode.Center rest s
  else if flag = "-cover" then imageCommand env outputs ImageMode.Cover rest s
  else if flag = "-root" then Step.next 0 s
  else if flag = "-screens" then Step.next 1 s
  else
    Step.exit 1 { s with
      modifier := false
      trace := s.trace ++ [Op.free_image, Op.free_color_range] ++
        (if s.modifier then [Op.free_color_modifier] else []) }

/-- The loop `for (i = 1; i < argc; i++)` of lines 312-412 over the entries of
`argv` that are still to be read. -/
def commandLoop (env : Env) (outputs : List XineramaScreenInfo) (width height : Int) :
    List String → RenderState → Outcome
  | [], s => Outcome.done s
  | flag :: rest, s =>
    match command env outputs width height flag rest (loopHead s) with
    | Step.next used s' => commandLoop env outputs width height (rest.drop used) s'
    | Step.exit code s' => Outcome.exit code s'
    | Step.diverge => Outcome.diverge
termination_by args => args.length
decreasing_by
  simp only [List.length_drop, List.length_cons]
  omega

/-- The global option scan of lines 232-254: whether `-root` was given. -/
def optRoot : List String → Bool → Bool
  | [], opt_root => opt_root
  | flag :: rest, opt_root =>
    if flag = "-screens" then
      match rest with
      | [] => opt_root
      | _ :: rest' => optRoot rest' opt_root
    else if flag = "-root" then optRoot rest true
    else optRoot rest opt_root

/-- The output topology `main` hands to `load_image` (lines 256-271 and
289-292): with `-root` the single rectangle `fake`, whose size is set to
`width x height`, else the rectangles reported by `XineramaQueryScreens`. -/
def screenOutputs (opt_root : Bool) (xinerama : List XineramaScreenInfo) (width height : Int) :
    List XineramaScreenInfo :=
  if opt_root then [{ x_org := 0, y_org := 0, width := width, height := height }]
  else xinerama

/-- The body of the screen loop up to the end of the command loop (lines
283-412) for a screen of size `displayWidth x displayHeight`: the canvas size
`(width, height)`, the topology, and the outcome of the commands. -/
def renderScreen (env : Env) (xinerama : List XineramaScreenInfo) (displayWidth displayHeight : Int)
    (args : List String) : (Int × Int) × List XineramaScreenInfo × Outcome :=
  let width := displayWidth + offset
  let height := displayHeight + offset
  let outputs := screenOutputs (optRoot args false) xinerama width height
  let s : RenderState :=
    { alpha := 255, modifier := false, stderr := [],
      trace := [Op.create_image width height, Op.context_set_image ImgRef.rootimg,
        Op.context_set_color 0 0 0 255, Op.image_fill_rectangle 0 0 width height] }
  ((width, height), outputs, commandLoop env outputs width height args s)

/-! ## Pixel view of the colour modifier -/

/-- One RGBA pixel of the decoded image. -/
structure Pixel where
  r : DATA8
  g : DATA8
  b : DATA8
  a : DATA8

/-- Mapping a pixel through the four lookup tables, which is what Imlib2 does
to every pixel of the context image on `imlib_apply_color_modifier()`. -/
def Tables.apply (t : Tables) (p : Pixel) : Pixel :=
  { r := t.red p.r, g := t.green p.g, b := t.blue p.b, a := t.alph p.a }

/-- The identity lookup tables. -/
def identityTables : Tables :=
  { red := fun i => i, green := fun i => i, blue := fun i => i, alph := fun i => i }

/-- The value of one pixel of the decoded image after a trace: `cur` is the
context image, `tabs` the tables of the context colour modifier (if any), and
`fresh` the tables of a newly created modifier. -/
def bufferPixel (fresh : Tables) : List Op → ImgRef → Option Tables → Pixel → Pixel
  | [], _, _, p => p
  | Op.context_set_image img :: ops, _, tabs, p => bufferPixel fresh ops img tabs p
  | Op.create_color_modifier :: ops, cur, _, p => bufferPixel fresh ops cur (some fresh) p
  | Op.set_color_modifier_tables t :: ops, cur, _, p => bufferPixel fresh ops cur (some t) p
  | Op.free_color_modifier :: ops, cur, _, p => bufferPixel fresh ops cur none p
  | Op.apply_color_modifier :: ops, cur, tabs, p =>
    match cur, tabs with
    | ImgRef.buffer, some t => bufferPixel fresh ops cur tabs (t.apply p)
    | _, _ => bufferPixel fresh ops cur tabs p
  | _ :: ops, cur, tabs, p => bufferPixel fresh ops cur tabs p

/-- Whether an op creates, sets, applies or frees a colour modifier. -/
def Op.isModifierOp : Op → Bool
  | Op.create_color_modifier => true
  | Op.set_color_modifier_tables _ => true
  | Op.apply_color_modifier => true
  | Op.free_color_modifier => true
  | _ => false

/-- Whether an op draws: a blend or a rectangle copy. -/
def Op.isDrawOp : Op → Bool
  | Op.blend _ _ _ _ _ _ _ _ => true
  | Op.copy_rect _ _ _ _ _ _ => true
  | _ => false

/-! ## Geometry of ops -/

/-- Whether the destination of a blend contains the canvas pixel `(px, py)`. -/
def Op.blendCovers (px py : Int) : Op → Bool
  | Op.blend _ _ _ _ dx dy dw dh =>
    decide (dx ≤ px) && decide (px < dx + dw) && decide (dy ≤ py) && decide (py < dy + dh)
  | _ => false

/-- Whether the destination of a blend lies entirely inside the rectangle `o`. -/
def Op.blendInside (o : XineramaScreenInfo) : Op → Bool
  | Op.blend _ _ _ _ dx dy dw dh =>
    decide (o.x_org ≤ dx) && decide (dx + dw ≤ o.x_org + o.width) &&
    decide (o.y_org ≤ dy) && decide (dy + dh ≤ o.y_org + o.height)
  | _ => false

/-- Whether the destination of a blend shares at least one pixel with the
rectangle `o`. -/
def Op.blendOverlaps (o : XineramaScreenInfo) : Op → Bool
  | Op.blend _ _ _ _ dx dy dw dh =>
    decide (dx < o.x_org + o.width) && decide (o.x_org < dx + dw) &&
    decide (dy < o.y_org + o.height) && decide (o.y_org < dy + dh)
  | _ => false

/-- Whether the destination columns of a blend or of a rectangle copy contain
the canvas column `x`. -/
def Op.dstHasCol (x : Int) : Op → Bool
  | Op.blend _ _ _ _ dx _ dw _ => decide (dx ≤ x) && decide (x < dx + dw)
  | Op.copy_rect _ _ w _ nx _ => decide (nx ≤ x) && decide (x < nx + w)
  | _ => false

/-- Whether the destination rows of a blend or of a rectangle copy contain the
canvas row `y`. -/
def Op.dstHasRow (y : Int) : Op → Bool
  | Op.blend _ _ _ _ _ dy _ dh => decide (dy ≤ y) && decide (y < dy + dh)
  | Op.copy_rect _ _ _ h _ ny => decide (ny ≤ y) && decide (y < ny + h)
  | _ => false

/-- Whether the destination rectangle of a rectangle copy contains the canvas
pixel `(px, py)`. -/
def Op.copyDstHas (px py : Int) : Op → Bool
  | Op.copy_rect _ _ w h nx ny =>
    decide (nx ≤ px) && decide (px < nx + w) && decide (ny ≤ py) && decide (py < ny + h)
  | _ => false

/-- Whether an op is a rectangle copy. -/
def Op.isCopy : Op → Bool
  | Op.copy_rect _ _ _ _ _ _ => true
  | _ => false

/-- Whether the destination of a rectangle copy lies inside the rectangle `o`
widened by `m` columns on the left and right and by `n` rows above and below;
`true` for every other op. -/
def Op.copyDstWithin (o : XineramaScreenInfo) (m n : Int) : Op → Bool
  | Op.copy_rect _ _ w h nx ny =>
    decide (o.x_org - m ≤ nx) && decide (nx + w ≤ o.x_org + o.width + m) &&
    decide (o.y_org - n ≤ ny) && decide (ny + h ≤ o.y_org + o.height + n)
  | _ => true

/-! ## Lemmas: rounding to a 53-bit significand -/

theorem ilog2Loop_spec : ∀ (fuel n : Nat), n ≤ fuel → 1 ≤ n →
    2 ^ ilog2Loop fuel n ≤ n ∧ n < 2 ^ (ilog2Loop fuel n + 1) := by
  intro fuel
  induction fuel with
  | zero => intro n h1 h2; omega
  | succ f ih =>
    intro n h1 h2
    by_cases hn : n < 2
    · simp only [ilog2Loop, if_pos hn]
      norm_num
      omega
    · obtain ⟨hlo, hhi⟩ := ih (n / 2) (by omega) (by omega)
      simp only [ilog2Loop, if_neg hn]
      rw [pow_succ, pow_succ]
      rw [pow_succ] at hhi
      omega

theorem ilog2_spec (n : Nat) (h : 1 ≤ n) : 2 ^ ilog2 n ≤ n ∧ n < 2 ^ (ilog2 n + 1) :=
  ilog2Loop_spec n n (le_refl _) h


theorem round_core (n d : Nat) (hd : 0 < d) (h1 : 2 ^ 52 * d ≤ n) (h2 : n < 2 ^ 53 * d) :
    2 ^ 52 ≤ (if 2 * (n % d) > d ∨ (2 * (n % d) = d ∧ n / d % 2 = 1) then n / d + 1 else n / d) ∧
    (if 2 * (n % d) > d ∨ (2 * (n % d) = d ∧ n / d % 2 = 1) then n / d + 1 else n / d) ≤ 2 ^ 53 ∧
    |(((if 2 * (n % d) > d ∨ (2 * (n % d) = d ∧ n / d % 2 = 1) then n / d + 1 else n / d : Nat) : ℚ)
        - (n : ℚ) / (d : ℚ))| * 2 ≤ 1 ∧
    (|(((if 2 * (n % d) > d ∨ (2 * (n % d) = d ∧ n / d % 2 = 1) then n / d + 1 else n / d : Nat) : ℚ)
        - (n : ℚ) / (d : ℚ))| * 2 = 1 →
      (if 2 * (n % d) > d ∨ (2 * (n % d) = d ∧ n / d % 2 = 1) then n / d + 1 else n / d) % 2 = 0) := by
  have hq1 : 2 ^ 52 ≤ n / d := (Nat.le_div_iff_mul_le hd).2 h1
  have hq2 : n / d < 2 ^ 53 := (Nat.div_lt_iff_lt_mul hd).2 h2
  have hr : n % d < d := Nat.mod_lt _ hd
  have hdq : (0 : ℚ) < (d : ℚ) := by exact_mod_cast hd
  have hn : (n : ℚ) = (d : ℚ) * ((n / d : Nat) : ℚ) + ((n % d : Nat) : ℚ) := by
    exact_mod_cast (Nat.div_add_mod n d).symm
  have hfrac : (n : ℚ) / (d : ℚ) = ((n / d : Nat) : ℚ) + ((n % d : Nat) : ℚ) / (d : ℚ) := by
    rw [hn]; field_simp; ring
  have hrq : ((n % d : Nat) : ℚ) < (d : ℚ) := by exact_mod_cast hr
  have hr0 : (0 : ℚ) ≤ ((n % d : Nat) : ℚ) := by positivity
  split
  · rename_i hc
    have h2r : (d : ℚ) ≤ 2 * ((n % d : Nat) : ℚ) := by
      rcases hc with hc | hc
      · exact_mod_cast hc.le
      · exact_mod_cast hc.1.ge
    have hval : |(((n / d + 1 : Nat) : ℚ) - (n : ℚ) / (d : ℚ))| * 2 =
        ((d : ℚ) - ((n % d : Nat) : ℚ)) * 2 / (d : ℚ) := by
      rw [hfrac]
      push_cast
      have : ((n / d : Nat) : ℚ) + 1 - (((n / d : Nat) : ℚ) + ((n % d : Nat) : ℚ) / (d : ℚ)) =
          ((d : ℚ) - ((n % d : Nat) : ℚ)) / (d : ℚ) := by field_simp; ring
      rw [this, abs_of_nonneg (div_nonneg (by linarith) hdq.le), div_mul_eq_mul_div]
    refine ⟨by omega, by omega, ?_, ?_⟩
    · rw [hval, div_le_one hdq]
      linarith
    · intro htie
      rw [hval, div_eq_one_iff_eq hdq.ne'] at htie
      have h2r' : 2 * ((n % d : Nat) : ℚ) = (d : ℚ) := by linarith
      have hnat : 2 * (n % d) = d := by exact_mod_cast h2r'
      rcases hc with hc | hc
      · omega
      · omega
  · rename_i hc
    have h2r : 2 * ((n % d : Nat) : ℚ) ≤ (d : ℚ) := by
      have : 2 * (n % d) ≤ d := by
        by_contra h
        exact hc (Or.inl (by omega))
      exact_mod_cast this
    have hval : |(((n / d : Nat) : ℚ) - (n : ℚ) / (d : ℚ))| * 2 =
        ((n % d : Nat) : ℚ) * 2 / (d : ℚ) := by
      rw [hfrac]
      have : ((n / d : Nat) : ℚ) - (((n / d : Nat) : ℚ) + ((n % d : Nat) : ℚ) / (d : ℚ)) =
          -(((n % d : Nat) : ℚ) / (d : ℚ)) := by ring
      rw [this, abs_neg, abs_of_nonneg (div_nonneg hr0 hdq.le), div_mul_eq_mul_div]
    refine ⟨hq1, hq2.le, ?_, ?_⟩
    · rw [hval, div_le_one hdq]
      linarith
    · intro htie
      rw [hval, div_eq_one_iff_eq hdq.ne'] at htie
      have h2r' : 2 * ((n % d : Nat) : ℚ) = (d : ℚ) := by linarith
      have hnat : 2 * (n % d) = d := by exact_mod_cast h2r'
      by_contra hodd
      exact hc (Or.inr ⟨hnat, by omega⟩)

theorem roundRatio_scaled (a b : Nat) (ha : 0 < a) (hb : 0 < b) :
    ∃ (n d : Nat) (s : Int), 0 < d ∧ 2 ^ 52 * d ≤ n ∧ n < 2 ^ 53 * d ∧
      (n : ℚ) / (d : ℚ) = (a : ℚ) / (b : ℚ) * (2 : ℚ) ^ s ∧
      roundRatio a b =
        (if 2 * (n % d) > d ∨ (2 * (n % d) = d ∧ n / d % 2 = 1) then n / d + 1 else n / d, -s) := by
  obtain ⟨A1, A2⟩ := ilog2_spec a ha
  obtain ⟨B1, B2⟩ := ilog2_spec b hb
  have hbq : (b : ℚ) ≠ 0 := by exact_mod_cast hb.ne'
  have h2 : (2 : ℚ) ≠ 0 := by norm_num
  by_cases hs : (0 : Int) ≤ 52 - ((ilog2 a : Int) - (ilog2 b : Int))
  · obtain ⟨t, ht⟩ : ∃ t : Nat, (t : Int) = 52 - ((ilog2 a : Int) - (ilog2 b : Int)) :=
      ⟨_, Int.toNat_of_nonneg hs⟩
    have hta : t + ilog2 a = 52 + ilog2 b := by omega
    have htn : (52 - ((ilog2 a : Int) - (ilog2 b : Int))).toNat = t := by omega
    have L : 2 ^ 51 * b < a * 2 ^ t := by
      calc 2 ^ 51 * b < 2 ^ 51 * 2 ^ (ilog2 b + 1) := by
            exact Nat.mul_lt_mul_of_pos_left B2 (by positivity)
        _ = 2 ^ ilog2 a * 2 ^ t := by rw [← pow_add, ← pow_add]; congr 1; omega
        _ ≤ a * 2 ^ t := Nat.mul_le_mul_right _ A1
    have U : a * 2 ^ t < 2 ^ 53 * b := by
      calc a * 2 ^ t < 2 ^ (ilog2 a + 1) * 2 ^ t := by
            exact Nat.mul_lt_mul_of_pos_right A2 (by positivity)
        _ = 2 ^ 53 * 2 ^ ilog2 b := by rw [← pow_add, ← pow_add]; congr 1; omega
        _ ≤ 2 ^ 53 * b := Nat.mul_le_mul_left _ B1
    have hpow : (2 : ℚ) ^ (52 - ((ilog2 a : Int) - (ilog2 b : Int))) = (2 : ℚ) ^ t := by
      rw [← ht, zpow_natCast]
    by_cases hlt : a * 2 ^ t / b < 2 ^ 52
    · refine ⟨2 * (a * 2 ^ t), b, 52 - ((ilog2 a : Int) - (ilog2 b : Int)) + 1, hb, by omega,
        ?_, ?_, ?_⟩
      · have := (Nat.div_lt_iff_lt_mul hb).1 hlt
        omega
      · rw [zpow_add_one₀ h2, hpow]
        push_cast
        field_simp
        ring
      · simp only [roundRatio, if_neg ha.ne', if_pos hs, htn, if_pos hlt]
    · refine ⟨a * 2 ^ t, b, 52 - ((ilog2 a : Int) - (ilog2 b : Int)), hb, ?_, U, ?_, ?_⟩
      · exact (Nat.le_div_iff_mul_le hb).1 (not_lt.1 hlt)
      · rw [hpow]
        push_cast
        field_simp
      · simp only [roundRatio, if_neg ha.ne', if_pos hs, htn, if_neg hlt]
  · obtain ⟨u, hu⟩ : ∃ u : Nat, (u : Int) = -(52 - ((ilog2 a : Int) - (ilog2 b : Int))) :=
      ⟨_, Int.toNat_of_nonneg (by omega)⟩
    have hua : ilog2 a = 52 + ilog2 b + u := by omega
    have hun : (-(52 - ((ilog2 a : Int) - (ilog2 b : Int)))).toNat = u := by omega
    have hd : 0 < b * 2 ^ u := by positivity
    have L : 2 ^ 51 * (b * 2 ^ u) < a := by
      calc 2 ^ 51 * (b * 2 ^ u) < 2 ^ 51 * (2 ^ (ilog2 b + 1) * 2 ^ u) := by
            exact Nat.mul_lt_mul_of_pos_left (Nat.mul_lt_mul_of_pos_right B2 (by positivity))
              (by positivity)
        _ = 2 ^ ilog2 a := by rw [← pow_add, ← pow_add]; congr 1; omega
        _ ≤ a := A1
    have U : a < 2 ^ 53 * (b * 2 ^ u) := by
      calc a < 2 ^ (ilog2 a + 1) := A2
        _ = 2 ^ 53 * (2 ^ ilog2 b * 2 ^ u) := by rw [← pow_add, ← pow_add]; congr 1; omega
        _ ≤ 2 ^ 53 * (b * 2 ^ u) :=
            Nat.mul_le_mul_left _ (Nat.mul_le_mul_right _ B1)
    have hpow : (2 : ℚ) ^ (52 - ((ilog2 a : Int) - (ilog2 b : Int))) = ((2 : ℚ) ^ u)⁻¹ := by
      have : 52 - ((ilog2 a : Int) - (ilog2 b : Int)) = -(u : Int) := by omega
      rw [this, zpow_neg, zpow_natCast]
    have hup : ((2 : ℚ) ^ u) ≠ 0 := by positivity
    by_cases hlt : a / (b * 2 ^ u) < 2 ^ 52
    · refine ⟨2 * a, b * 2 ^ u, 52 - ((ilog2 a : Int) - (ilog2 b : Int)) + 1, hd, by omega,
        ?_, ?_, ?_⟩
      · have := (Nat.div_lt_iff_lt_mul hd).1 hlt
        omega
      · rw [zpow_add_one₀ h2, hpow]
        push_cast
        field_simp
        ring
      · simp only [roundRatio, if_neg ha.ne', if_neg hs, hun, if_pos hlt]
    · refine ⟨a, b * 2 ^ u, 52 - ((ilog2 a : Int) - (ilog2 b : Int)), hd, ?_, U, ?_, ?_⟩
      · exact (Nat.le_div_iff_mul_le hd).1 (not_lt.1 hlt)
      · rw [hpow]
        push_cast
        field_simp
      · simp only [roundRatio, if_neg ha.ne', if_neg hs, hun, if_neg hlt]

/-- The pair `(q, k) = roundRatio a b` is round-to-nearest, ties to even, at
53 bits: `2^52 <= q <= 2^53`, the value `q * 2^k` is within half a unit `2^k`
of `a / b`, and `q` is even when it is exactly half a unit away. -/
theorem roundRatio_spec (a b : Nat) (ha : 0 < a) (hb : 0 < b) :
    2 ^ 52 ≤ (roundRatio a b).1 ∧ (roundRatio a b).1 ≤ 2 ^ 53 ∧
    |((roundRatio a b).1 : ℚ) * (2 : ℚ) ^ (roundRatio a b).2 - (a : ℚ) / (b : ℚ)| * 2 ≤
      (2 : ℚ) ^ (roundRatio a b).2 ∧
    (|((roundRatio a b).1 : ℚ) * (2 : ℚ) ^ (roundRatio a b).2 - (a : ℚ) / (b : ℚ)| * 2 =
      (2 : ℚ) ^ (roundRatio a b).2 → (roundRatio a b).1 % 2 = 0) := by
  obtain ⟨n, d, s, hd, h1, h2, hq, hr⟩ := roundRatio_scaled a b ha hb
  obtain ⟨c1, c2, c3, c4⟩ := round_core n d hd h1 h2
  rw [hr]
  have hpos : (0 : ℚ) < (2 : ℚ) ^ (-s) := by positivity
  have hab : (a : ℚ) / (b : ℚ) = (n : ℚ) / (d : ℚ) * (2 : ℚ) ^ (-s) := by
    rw [hq, mul_assoc, ← zpow_add₀ (by norm_num : (2 : ℚ) ≠ 0)]
    simp
  have herr : ∀ q : ℚ, |q * (2 : ℚ) ^ (-s) - (a : ℚ) / (b : ℚ)| * 2 =
      (|q - (n : ℚ) / (d : ℚ)| * 2) * (2 : ℚ) ^ (-s) := by
    intro q
    rw [hab, ← sub_mul, abs_mul, abs_of_pos hpos]
    ring
  refine ⟨c1, c2, ?_, ?_⟩
  · rw [herr]
    calc _ ≤ 1 * (2 : ℚ) ^ (-s) := mul_le_mul_of_nonneg_right c3 hpos.le
      _ = _ := one_mul _
  · intro htie
    rw [herr] at htie
    apply c4
    have := mul_right_cancel₀ hpos.ne' (htie.trans (one_mul _).symm)
    exact this

/-! ## Lemmas: truncation and the scaled rectangle -/

theorem castInt_mul_div (a b c : Int) (ha : 0 ≤ a) (hb : 0 ≤ b) (hc : 0 < c) :
    castInt ((a : ℚ) * ((b : ℚ) / (c : ℚ))) = a * b / c := by
  have hcq : (0 : ℚ) < (c : ℚ) := by exact_mod_cast hc
  have haq : (0 : ℚ) ≤ (a : ℚ) := by exact_mod_cast ha
  have hbq : (0 : ℚ) ≤ (b : ℚ) := by exact_mod_cast hb
  have hq : (0 : ℚ) ≤ (a : ℚ) * ((b : ℚ) / (c : ℚ)) := mul_nonneg haq (div_nonneg hbq hcq.le)
  obtain ⟨k, rfl⟩ : ∃ k : ℕ, c = (k : Int) := ⟨c.toNat, by omega⟩
  unfold castInt
  rw [if_pos hq, ← mul_div_assoc]
  have key := Rat.floor_intCast_div_natCast (a * b) k
  push_cast at key
  exact key

theorem castInt_self_mul_div (a b : Int) (ha : 0 < a) (hb : 0 ≤ b) :
    castInt ((a : ℚ) * ((b : ℚ) / (a : ℚ))) = b := by
  rw [castInt_mul_div a b a ha.le hb ha, Int.mul_ediv_cancel_left _ ha.ne']

/-- The exact reading in integer arithmetic: with positive image sides and a
non-negative output size every cast is a floor division. -/
theorem scaledRectExact_eq (cover : Bool) (imgW imgH W H : Int)
    (hw : 0 < imgW) (hh : 0 < imgH) (hW : 0 ≤ W) (hH : 0 ≤ H) :
    scaledRectExact cover imgW imgH W H =
      if (decide (imgH * W / imgW > H)) != cover then
        (Int.tdiv (W - imgW * H / imgH) 2, Int.tdiv (H - H) 2, imgW * H / imgH, H)
      else (Int.tdiv (W - W) 2, Int.tdiv (H - imgH * W / imgW) 2, W, imgH * W / imgW) := by
  unfold scaledRectExact chooseAspectExact
  simp only [castInt_mul_div imgH W imgW hh.le hW hw]
  split
  · simp only [castInt_mul_div imgW H imgH hw.le hH hh, castInt_self_mul_div imgH H hh hH]
  · simp only [castInt_mul_div imgH W imgW hh.le hW hw, castInt_self_mul_div imgW W hw hW]

/-! ## Lemmas: the border extension loops -/

/-- The doubling loop over columns ends; its copies, each as high as the
output, fill every pixel of the output from column `right + w` to the right
edge and from column `left + 1 - (o.width - right)` up to `left + 1 - w` on
the left; and every copy it makes has a width `v` with `right + v < o.width`. -/
theorem extendCols_spec (o : XineramaScreenInfo) (left right : Int) :
    ∀ (fuel : Nat) (w : Int), 1 ≤ w → (o.width - right - w).toNat < fuel →
    ∃ ops, extendCols o left right fuel w = some ops ∧
      (∀ px py, o.x_org + right + w ≤ px → px < o.x_org + o.width →
        o.y_org ≤ py → py < o.y_org + o.height →
        ∃ op ∈ ops, op.copyDstHas px py = true) ∧
      (∀ px py, o.x_org + left + 1 - (o.width - right) ≤ px → px < o.x_org + left + 1 - w →
        o.y_org ≤ py → py < o.y_org + o.height →
        ∃ op ∈ ops, op.copyDstHas px py = true) ∧
      (∀ op ∈ ops, ∃ v, 1 ≤ v ∧ right + v < o.width ∧
        (op = Op.copy_rect (o.x_org + left + 1 - v) o.y_org v o.height
                (o.x_org + left + 1 - v - v) o.y_org ∨
         op = Op.copy_rect (o.x_org + right) o.y_org v o.height (o.x_org + right + v) o.y_org)) := by
  intro fuel
  induction fuel with
  | zero => intro w _ hf; omega
  | succ n ih =>
    intro w hw hf
    by_cases hc : right + w < o.width
    · obtain ⟨rest, hrest, hR, hL, hB⟩ := ih (w * 2) (by omega) (by omega)
      refine ⟨_, by simp only [extendCols, if_pos hc, hrest, Option.map_some']; rfl, ?_, ?_, ?_⟩
      · intro px py h1 h2 h3 h4
        by_cases hx : px < o.x_org + right + w + w
        · refine ⟨_, List.mem_cons_of_mem _ (List.mem_cons_self _ _), ?_⟩
          simp only [Op.copyDstHas, Bool.and_eq_true, decide_eq_true_eq]
          omega
        · obtain ⟨op, hop, hcov⟩ := hR px py (by omega) h2 h3 h4
          exact ⟨op, List.mem_cons_of_mem _ (List.mem_cons_of_mem _ hop), hcov⟩
      · intro px py h1 h2 h3 h4
        by_cases hx : o.x_org + left + 1 - w - w ≤ px
        · refine ⟨_, List.mem_cons_self _ _, ?_⟩
          simp only [Op.copyDstHas, Bool.and_eq_true, decide_eq_true_eq]
          omega
        · obtain ⟨op, hop, hcov⟩ := hL px py h1 (by omega) h3 h4
          exact ⟨op, List.mem_cons_of_mem _ (List.mem_cons_of_mem _ hop), hcov⟩
      · intro op hop
        rcases List.mem_cons.1 hop with h | hop
        · exact ⟨w, hw, hc, Or.inl h⟩
        rcases List.mem_cons.1 hop with h | hop
        · exact ⟨w, hw, hc, Or.inr h⟩
        · exact hB op hop
    · refine ⟨[], by simp only [extendCols, if_neg hc], ?_, ?_, ?_⟩
      · intro px py h1 h2; omega
      · intro px py h1 h2; omega
      · intro op hop; simp at hop

/-- The doubling loop over rows: the statement of `extendCols_spec` with the
axes exchanged. -/
theorem extendRows_spec (o : XineramaScreenInfo) (top bottom : Int) :
    ∀ (fuel : Nat) (w : Int), 1 ≤ w → (o.height - bottom - w).toNat < fuel →
    ∃ ops, extendRows o top bottom fuel w = some ops ∧
      (∀ px py, o.y_org + bottom + w ≤ py → py < o.y_org + o.height →
        o.x_org ≤ px → px < o.x_org + o.width →
        ∃ op ∈ ops, op.copyDstHas px py = true) ∧
      (∀ px py, o.y_org + top + 1 - (o.height - bottom) ≤ py → py < o.y_org + top + 1 - w →
        o.x_org ≤ px → px < o.x_org + o.width →
        ∃ op ∈ ops, op.copyDstHas px py = true) ∧
      (∀ op ∈ ops, ∃ v, 1 ≤ v ∧ bottom + v < o.height ∧
        (op = Op.copy_rect o.x_org (o.y_org + top + 1 - v) o.width v
                o.x_org (o.y_org + top + 1 - v - v) ∨
         op = Op.copy_rect o.x_org (o.y_org + bottom) o.width v o.x_org (o.y_org + bottom + v))) := by
  intro fuel
  induction fuel with
  | zero => intro w _ hf; omega
  | succ n ih =>
    intro w hw hf
    by_cases hc : bottom + w < o.height
    · obtain ⟨rest, hrest, hR, hL, hB⟩ := ih (w * 2) (by omega) (by omega)
      refine ⟨_, by simp only [extendRows, if_pos hc, hrest, Option.map_some']; rfl, ?_, ?_, ?_⟩
      · intro px py h1 h2 h3 h4
        by_cases hy : py < o.y_org + bottom + w + w
        · refine ⟨_, List.mem_cons_of_mem _ (List.mem_cons_self _ _), ?_⟩
          simp only [Op.copyDstHas, Bool.and_eq_true, decide_eq_true_eq]
          omega
        · obtain ⟨op, hop, hcov⟩ := hR px py (by omega) h2 h3 h4
          exact ⟨op, List.mem_cons_of_mem _ (List.mem_cons_of_mem _ hop), hcov⟩
      · intro px py h1 h2 h3 h4
        by_cases hy : o.y_org + top + 1 - w - w ≤ py
        · refine ⟨_, List.mem_cons_self _ _, ?_⟩
          simp only [Op.copyDstHas, Bool.and_eq_true, decide_eq_true_eq]
          omega
        · obtain ⟨op, hop, hcov⟩ := hL px py h1 (by omega) h3 h4
          exact ⟨op, List.mem_cons_of_mem _ (List.mem_cons_of_mem _ hop), hcov⟩
      · intro op hop
        rcases List.mem_cons.1 hop with h | hop
        · exact ⟨w, hw, hc, Or.inl h⟩
        rcases List.mem_cons.1 hop with h | hop
        · exact ⟨w, hw, hc, Or.inr h⟩
        · exact hB op hop
    · refine ⟨[], by simp only [extendRows, if_neg hc], ?_, ?_, ?_⟩
      · intro px py h1 h2; omega
      · intro px py h1 h2; omega
      · intro op hop; simp at hop

/-! ## Lemmas: the tiling loops -/

/-- The phase loop ends when the step is positive; its result is at most 0,
lies above `-imgW` when the loop ran, and is the start value when it did not. -/
theorem tileStartLoop_spec (imgW : Int) (hw : 0 < imgW) :
    ∀ (fuel : Nat) (left : Int), left.toNat < fuel →
    ∃ l, tileStartLoop fuel left imgW = some l ∧ l ≤ 0 ∧ (left ≤ 0 → l = left) ∧
      (0 < left → -imgW < l) ∧ ∃ k : Nat, l = left - k * imgW := by
  intro fuel
  induction fuel with
  | zero => intro left hf; omega
  | succ n ih =>
    intro left hf
    by_cases hc : left > 0
    · obtain ⟨l, hl, h0, hkeep, hlow, k, hk⟩ := ih (left - imgW) (by omega)
      refine ⟨l, by simp only [tileStartLoop, if_pos hc, hl], h0, fun h => by omega, ?_, k + 1, ?_⟩
      · intro _
        by_cases hn : left - imgW ≤ 0
        · rw [hkeep hn]; omega
        · have := hlow (by omega); omega
      · rw [hk]; push_cast; ring
    · exact ⟨left, by simp only [tileStartLoop, if_neg hc], by omega, fun _ => rfl,
        fun h => by omega, 0, by simp⟩

theorem tileStart_spec (left imgW : Int) (hw : 0 < imgW) :
    ∃ l, tileStart left imgW = some l ∧ l ≤ 0 ∧ (left ≤ 0 → l = left) ∧
      (0 < left → -imgW < l) ∧ ∃ k : Nat, l = left - k * imgW :=
  tileStartLoop_spec imgW hw _ left (by omega)

/-- One column of tiles: the loop ends, every op is a blend of the whole image
at native size in column `x`, and a pixel of the output at or below the first
row is hit once when its column is in the tile column, else never. -/
theorem tileRows_spec (o : XineramaScreenInfo) (imgW imgH x : Int) (hh : 0 < imgH) :
    ∀ (fuel : Nat) (y : Int), (o.height - y).toNat < fuel →
    ∃ ops, tileRows o imgW imgH x fuel y = some ops ∧
      (∀ op ∈ ops, ∃ k : Nat, op = Op.blend 0 0 imgW imgH (o.x_org + x)
        (o.y_org + (y + k * imgH)) imgW imgH ∧ y + k * imgH < o.height) ∧
      (∀ px py, py < o.y_org + y → ops.countP (Op.blendCovers px py) = 0) ∧
      (∀ px py, o.y_org + y ≤ py → py < o.y_org + o.height →
        ops.countP (Op.blendCovers px py) =
          if o.x_org + x ≤ px ∧ px < o.x_org + x + imgW then 1 else 0) := by
  intro fuel
  induction fuel with
  | zero => intro y hf; omega
  | succ n ih =>
    intro y hf
    by_cases hc : y < o.height
    · obtain ⟨rest, hrest, hM, h0, h1⟩ := ih (y + imgH) (by omega)
      refine ⟨_, by simp only [tileRows, if_pos hc, hrest, Option.map_some']; rfl, ?_, ?_, ?_⟩
      · intro op hop
        rcases List.mem_cons.1 hop with h | hop
        · exact ⟨0, by simp [h], by simpa using hc⟩
        · obtain ⟨k, hk, hlt⟩ := hM op hop
          refine ⟨k + 1, ?_, ?_⟩
          · rw [hk]; push_cast; ring_nf
          · push_cast; linarith
      · intro px py hpy
        rw [List.countP_cons, h0 px py (by omega)]
        simp [Op.blendCovers]; omega
      · intro px py hlo hhi
        rw [List.countP_cons]
        by_cases hin : py < o.y_org + y + imgH
        · rw [h0 px py (by omega)]
          by_cases hcol : o.x_org + x ≤ px ∧ px < o.x_org + x + imgW
          · simp [Op.blendCovers, hcol]; omega
          · simp [Op.blendCovers, hcol]
        · rw [h1 px py (by omega) hhi]
          have : Op.blendCovers px py (Op.blend 0 0 imgW imgH (o.x_org + x) (o.y_org + y)
              imgW imgH) = false := by
            simp [Op.blendCovers]; omega
          simp [this]
    · refine ⟨[], by simp only [tileRows, if_neg hc], ?_, ?_, ?_⟩
      · intro op hop; simp at hop
      · intro px py _; rfl
      · intro px py h1 h2; omega

/-- The tile grid: the loops end, every op is a blend of the whole image at
native size on the grid through `(x, top)`, and a pixel of the output at or
below row `top` is hit exactly once when it is at or right of column `x`, and
never when it is left of it. -/
theorem tileCols_spec (o : XineramaScreenInfo) (imgW imgH top : Int) (hw : 0 < imgW)
    (hh : 0 < imgH) :
    ∀ (fuel : Nat) (x : Int), (o.width - x).toNat < fuel →
    ∃ ops, tileCols o imgW imgH top fuel x = some ops ∧
      (∀ op ∈ ops, ∃ j k : Nat, op = Op.blend 0 0 imgW imgH (o.x_org + (x + j * imgW))
        (o.y_org + (top + k * imgH)) imgW imgH ∧
        x + j * imgW < o.width ∧ top + k * imgH < o.height) ∧
      (∀ px py, o.y_org + top ≤ py → py < o.y_org + o.height →
        (px < o.x_org + x → ops.countP (Op.blendCovers px py) = 0) ∧
        (o.x_org + x ≤ px → px < o.x_org + o.width →
          ops.countP (Op.blendCovers px py) = 1)) := by
  intro fuel
  induction fuel with
  | zero => intro x hf; omega
  | succ n ih =>
    intro x hf
    by_cases hc : x < o.width
    · obtain ⟨col, hcol, hcM, _, hc1⟩ := tileRows_spec o imgW imgH x hh _ top (Nat.lt_succ_self _)
      obtain ⟨rest, hrest, hM, hcount⟩ := ih (x + imgW) (by omega)
      refine ⟨col ++ rest, by simp only [tileCols, if_pos hc, hcol, hrest, Option.map_some'], ?_, ?_⟩
      · intro op hop
        rcases List.mem_append.1 hop with hop | hop
        · obtain ⟨k, hk, hlt⟩ := hcM op hop
          exact ⟨0, k, by simp [hk], by simpa using hc, hlt⟩
        · obtain ⟨j, k, hk, hx, hy⟩ := hM op hop
          refine ⟨j + 1, k, ?_, ?_, hy⟩
          · rw [hk]; push_cast; ring_nf
          · push_cast; linarith
      · intro px py hlo hhi
        obtain ⟨hr0, hr1⟩ := hcount px py hlo hhi
        rw [List.countP_append, hc1 px py hlo hhi]
        constructor
        · intro hpx
          rw [hr0 (by omega), if_neg (by omega)]
        · intro hpx hpw
          by_cases hin : px < o.x_org + x + imgW
          · rw [hr0 (by omega), if_pos ⟨hpx, hin⟩]
          · rw [hr1 (by omega) hpw, if_neg (by omega)]
    · refine ⟨[], by simp only [tileCols, if_neg hc], ?_, ?_⟩
      · intro op hop; simp at hop
      · intro px py _ _
        exact ⟨fun _ => rfl, fun h1 h2 => by omega⟩

/-- The `Tile` branch ends for an image with positive sides; every op is a
blend of the whole image at native size at a grid point congruent to the
centred offset, and every pixel of the output is hit exactly once. -/
theorem tileOps_spec (o : XineramaScreenInfo) (imgW imgH : Int) (hw : 0 < imgW) (hh : 0 < imgH) :
    ∃ ops, tileOps o imgW imgH = some ops ∧
      (∀ op ∈ ops, ∃ x y : Int, op = Op.blend 0 0 imgW imgH (o.x_org + x) (o.y_org + y) imgW imgH ∧
        x < o.width ∧ y < o.height ∧
        (∃ m : Int, x = Int.tdiv (o.width - imgW) 2 + m * imgW) ∧
        (∃ m : Int, y = Int.tdiv (o.height - imgH) 2 + m * imgH)) ∧
      (∀ px py, o.x_org ≤ px → px < o.x_org + o.width → o.y_org ≤ py → py < o.y_org + o.height →
        ops.countP (Op.blendCovers px py) = 1) := by
  obtain ⟨left, hleft, hl0, _, _, kl, hkl⟩ := tileStart_spec (Int.tdiv (o.width - imgW) 2) imgW hw
  obtain ⟨top, htop, ht0, _, _, kt, hkt⟩ := tileStart_spec (Int.tdiv (o.height - imgH) 2) imgH hh
  obtain ⟨ops, hops, hM, hcount⟩ :=
    tileCols_spec o imgW imgH top hw hh _ left (Nat.lt_succ_self _)
  refine ⟨ops, by simp only [tileOps, hleft, htop, hops], ?_, ?_⟩
  · intro op hop
    obtain ⟨j, k, hk, hx, hy⟩ := hM op hop
    refine ⟨_, _, hk, hx, hy, ⟨(j : Int) - kl, ?_⟩, ⟨(k : Int) - kt, ?_⟩⟩
    · rw [hkl]; ring
    · rw [hkt]; ring
  · intro px py h1 h2 h3 h4
    exact (hcount px py (by omega) h4).2 (by omega) h2

/-! ## Lemmas: the mode dispatch -/

theorem placeOps_full (imgW imgH : Int) (o : XineramaScreenInfo) :
    placeOps ImageMode.Full imgW imgH o =
      some [Op.blend 0 0 imgW imgH
        (o.x_org + (scaledRect false imgW imgH o.width o.height).1)
        (o.y_org + (scaledRect false imgW imgH o.width o.height).2.1)
        (scaledRect false imgW imgH o.width o.height).2.2.1
        (scaledRect false imgW imgH o.width o.height).2.2.2] := by
  simp [placeOps]

theorem placeOps_cover (imgW imgH : Int) (o : XineramaScreenInfo) :
    placeOps ImageMode.Cover imgW imgH o =
      some [Op.blend 0 0 imgW imgH
        (o.x_org + (scaledRect true imgW imgH o.width o.height).1)
        (o.y_org + (scaledRect true imgW imgH o.width o.height).2.1)
        (scaledRect true imgW imgH o.width o.height).2.2.1
        (scaledRect true imgW imgH o.width o.height).2.2.2] := by
  simp [placeOps]

theorem placeOps_fill (imgW imgH : Int) (o : XineramaScreenInfo) :
    placeOps ImageMode.Fill imgW imgH o =
      some [Op.blend 0 0 imgW imgH o.x_org o.y_org o.width o.height] := by
  simp [placeOps]

theorem placeOps_center (imgW imgH : Int) (o : XineramaScreenInfo) :
    placeOps ImageMode.Center imgW imgH o =
      some [Op.blend 0 0 imgW imgH (o.x_org + Int.tdiv (o.width - imgW) 2)
        (o.y_org + Int.tdiv (o.height - imgH) 2) imgW imgH] := by
  simp [placeOps]

theorem placeOps_tile (imgW imgH : Int) (o : XineramaScreenInfo) :
    placeOps ImageMode.Tile imgW imgH o = tileOps o imgW imgH := by
  simp [placeOps]

/-- The geometry of the `Full` rectangle in the exact reading: it lies inside
the output, is flush on one axis and is centred. -/
theorem scaledRectExact_full_bounds (imgW imgH W H : Int)
    (hw : 0 < imgW) (hh : 0 < imgH) (hW : 0 ≤ W) (hH : 0 ≤ H) :
    ∃ left top w h,
      scaledRectExact false imgW imgH W H = (left, top, w, h) ∧
      0 ≤ w ∧ 0 ≤ h ∧ w ≤ W ∧ h ≤ H ∧ (w = W ∨ h = H) ∧
      left = (W - w) / 2 ∧ top = (H - h) / 2 := by
  rw [scaledRectExact_eq false imgW imgH W H hw hh hW hH]
  have h1nn : 0 ≤ imgH * W / imgW := Int.ediv_nonneg (Int.mul_nonneg hh.le hW) hw.le
  have h2nn : 0 ≤ imgW * H / imgH := Int.ediv_nonneg (Int.mul_nonneg hw.le hH) hh.le
  by_cases hc : imgH * W / imgW > H
  · have hle : imgW * H / imgH ≤ W := by
      apply Int.ediv_le_of_le_mul hh
      have h3 : (H + 1) * imgW ≤ imgH * W := (Int.le_ediv_iff_mul_le hw).1 hc
      nlinarith
    have hcond : ((decide (imgH * W / imgW > H)) != false) = true := by simp [hc]
    rw [if_pos hcond]
    exact ⟨_, _, _, _, rfl, h2nn, hH, hle, le_refl _, Or.inr rfl,
      Int.tdiv_eq_ediv (by omega) (by decide), Int.tdiv_eq_ediv (by omega) (by decide)⟩
  · have hcond : ¬ ((decide (imgH * W / imgW > H)) != false) = true := by simp [hc]
    rw [if_neg hcond]
    exact ⟨_, _, _, _, rfl, hW, h1nn, le_refl _, by omega, Or.inl rfl,
      Int.tdiv_eq_ediv (by omega) (by decide), Int.tdiv_eq_ediv (by omega) (by decide)⟩

/-! ## Lemmas: signs in `double` arithmetic -/

theorem Double.toInt_nonneg (x : Double) (h : 0 ≤ x.m) : 0 ≤ x.toInt := by
  unfold Double.toInt
  split
  · exact Int.mul_nonneg h (pow_nonneg (by decide) _)
  · exact Int.tdiv_nonneg h (pow_nonneg (by decide) _)

theorem Double.ofInt_m_nonneg (n : Int) (h : 0 ≤ n) : 0 ≤ (Double.ofInt n).m :=
  Int.mul_nonneg (Int.sign_nonneg.2 h) (Int.ofNat_nonneg _)

theorem Double.div_m_nonneg (x y : Double) (hx : 0 ≤ x.m) (hy : 0 ≤ y.m) :
    0 ≤ (Double.div x y).m :=
  Int.mul_nonneg (Int.mul_nonneg (Int.sign_nonneg.2 hx) (Int.sign_nonneg.2 hy))
    (Int.ofNat_nonneg _)

theorem Double.mul_m_nonneg (x y : Double) (hx : 0 ≤ x.m) (hy : 0 ≤ y.m) :
    0 ≤ (Double.mul x y).m :=
  Int.mul_nonneg (Int.mul_nonneg (Int.sign_nonneg.2 hx) (Int.sign_nonneg.2 hy))
    (Int.ofNat_nonneg _)

theorem chooseAspect_m_nonneg (cover : Bool) (imgW imgH W H : Int)
    (hw : 0 ≤ imgW) (hh : 0 ≤ imgH) (hW : 0 ≤ W) (hH : 0 ≤ H) :
    0 ≤ (chooseAspect cover imgW imgH W H).m := by
  have h1 := Double.div_m_nonneg _ _ (Double.ofInt_m_nonneg H hH) (Double.ofInt_m_nonneg imgH hh)
  have h2 := Double.div_m_nonneg _ _ (Double.ofInt_m_nonneg W hW) (Double.ofInt_m_nonneg imgW hw)
  simp only [chooseAspect]
  split
  · exact h1
  · exact h2

/-- With non-negative image sides and output size the blended width and height
are non-negative, whatever the rounding. -/
theorem scaledRect_size_nonneg (cover : Bool) (imgW imgH W H : Int)
    (hw : 0 ≤ imgW) (hh : 0 ≤ imgH) (hW : 0 ≤ W) (hH : 0 ≤ H) :
    0 ≤ (scaledRect cover imgW imgH W H).2.2.1 ∧ 0 ≤ (scaledRect cover imgW imgH W H).2.2.2 := by
  have ha := chooseAspect_m_nonneg cover imgW imgH W H hw hh hW hH
  exact ⟨Double.toInt_nonneg _ (Double.mul_m_nonneg _ _ (Double.ofInt_m_nonneg imgW hw) ha),
    Double.toInt_nonneg _ (Double.mul_m_nonneg _ _ (Double.ofInt_m_nonneg imgH hh) ha)⟩

theorem load_image_loaded (loader : String → Option (Int × Int)) (fresh : Tables)
    (mode : ImageMode) (arg : String) (alpha : Int) (outputs : List XineramaScreenInfo)
    (imgW imgH : Int) (ops : List Op) (hload : loader arg = some (imgW, imgH))
    (hops : outputsLoop mode imgW imgH outputs = some ops) :
    load_image loader fresh mode arg alpha outputs =
      some (1, Op.context_set_image ImgRef.buffer :: alphaMask fresh alpha ++
        Op.context_set_image ImgRef.rootimg :: ops ++
        [Op.context_set_image ImgRef.buffer, Op.free_image, Op.context_set_image ImgRef.rootimg]) := by
  simp only [load_image, hload, hops]

theorem Op.isDrawOp_of_isCopy (op : Op) (h : op.isCopy = true) : op.isDrawOp = true := by
  cases op <;> first | rfl | simp [Op.isCopy] at h

theorem tdiv_two_of_pos (a : Int) (h : 0 < Int.tdiv a 2) :
    2 * Int.tdiv a 2 ≤ a ∧ a ≤ 2 * Int.tdiv a 2 + 1 := by
  by_cases ha : 0 ≤ a
  · rw [Int.tdiv_eq_ediv ha (by decide)] at h ⊢
    omega
  · have h1 : Int.tdiv a 2 = -((-a) / 2) := by
      rw [← Int.tdiv_eq_ediv (by omega) (by decide), Int.neg_tdiv, neg_neg]
    omega

/-- The block `if (left > 0)` of the `Xtend` branch, for `left = (o.width - iw) / 2`
and any blended width `iw`: the loop ends; when `left > 0` every pixel of the
output lies in the blended columns or in the destination rectangle of a copy;
every op is a copy whose destination rows are the rows of the output and whose
destination columns leave the output by at most `left + 1`. -/
theorem extendH_spec (o : XineramaScreenInfo) (left iw : Int)
    (hleft : left = Int.tdiv (o.width - iw) 2) :
    ∃ hs, extendH o left iw = some hs ∧
      (0 < left → ∀ px py, o.x_org ≤ px → px < o.x_org + o.width →
        o.y_org ≤ py → py < o.y_org + o.height →
        (o.x_org + left ≤ px ∧ px < o.x_org + left + iw) ∨
          ∃ op ∈ hs, op.copyDstHas px py = true) ∧
      (∀ op ∈ hs, (0 ≤ iw → op.copyDstWithin o (left + 1) 0 = true) ∧ op.isCopy = true ∧
        ∃ v, 1 ≤ v ∧ left - 1 + iw + v < o.width ∧
          (op = Op.copy_rect (o.x_org + left + 1 - v) o.y_org v o.height
                  (o.x_org + left + 1 - v - v) o.y_org ∨
           op = Op.copy_rect (o.x_org + (left - 1 + iw)) o.y_org v o.height
                  (o.x_org + (left - 1 + iw) + v) o.y_org)) := by
  by_cases hpos : left > 0
  · have hb := tdiv_two_of_pos (o.width - iw) (by rw [← hleft]; exact hpos)
    rw [← hleft] at hb
    obtain ⟨hs, hhs, hR, hL, hB⟩ :=
      extendCols_spec o left (left - 1 + iw) ((o.width - (left - 1 + iw)).toNat + 1) 1
        (le_refl _) (by omega)
    refine ⟨hs, by simp only [extendH, if_pos hpos, hhs], ?_, ?_⟩
    · intro _ px py h1 h2 h3 h4
      by_cases hx1 : px < o.x_org + left
      · exact Or.inr (hL px py (by omega) (by omega) h3 h4)
      · by_cases hx2 : px < o.x_org + left + iw
        · exact Or.inl ⟨by omega, hx2⟩
        · exact Or.inr (hR px py (by omega) h2 h3 h4)
    · intro op hop
      obtain ⟨v, hv1, hv2, hv | hv⟩ := hB op hop
      · subst hv
        refine ⟨fun _ => ?_, rfl, v, hv1, hv2, Or.inl rfl⟩
        simp only [Op.copyDstWithin, Bool.and_eq_true, decide_eq_true_eq]
        omega
      · subst hv
        refine ⟨fun _ => ?_, rfl, v, hv1, hv2, Or.inr rfl⟩
        simp only [Op.copyDstWithin, Bool.and_eq_true, decide_eq_true_eq]
        omega
  · refine ⟨[], by simp only [extendH, if_neg hpos], fun h => absurd h hpos, ?_⟩
    intro op hop; simp at hop

/-- The block `if (top > 0)` of the `Xtend` branch: the statement of
`extendH_spec` with the axes exchanged. -/
theorem extendV_spec (o : XineramaScreenInfo) (top ih : Int)
    (htop : top = Int.tdiv (o.height - ih) 2) :
    ∃ vs, extendV o top ih = some vs ∧
      (0 < top → ∀ px py, o.x_org ≤ px → px < o.x_org + o.width →
        o.y_org ≤ py → py < o.y_org + o.height →
        (o.y_org + top ≤ py ∧ py < o.y_org + top + ih) ∨
          ∃ op ∈ vs, op.copyDstHas px py = true) ∧
      (∀ op ∈ vs, (0 ≤ ih → op.copyDstWithin o 0 (top + 1) = true) ∧ op.isCopy = true ∧
        ∃ v, 1 ≤ v ∧ top - 1 + ih + v < o.height ∧
          (op = Op.copy_rect o.x_org (o.y_org + top + 1 - v) o.width v
                  o.x_org (o.y_org + top + 1 - v - v) ∨
           op = Op.copy_rect o.x_org (o.y_org + (top - 1 + ih)) o.width v
                  o.x_org (o.y_org + (top - 1 + ih) + v))) := by
  by_cases hpos : top > 0
  · have hb := tdiv_two_of_pos (o.height - ih) (by rw [← htop]; exact hpos)
    rw [← htop] at hb
    obtain ⟨vs, hvs, hR, hL, hB⟩ :=
      extendRows_spec o top (top - 1 + ih) ((o.height - (top - 1 + ih)).toNat + 1) 1
        (le_refl _) (by omega)
    refine ⟨vs, by simp only [extendV, if_pos hpos, hvs], ?_, ?_⟩
    · intro _ px py h1 h2 h3 h4
      by_cases hy1 : py < o.y_org + top
      · exact Or.inr (hL px py (by omega) (by omega) h1 h2)
      · by_cases hy2 : py < o.y_org + top + ih
        · exact Or.inl ⟨by omega, hy2⟩
        · exact Or.inr (hR px py (by omega) h4 h1 h2)
    · intro op hop
      obtain ⟨v, hv1, hv2, hv | hv⟩ := hB op hop
      · subst hv
        refine ⟨fun _ => ?_, rfl, v, hv1, hv2, Or.inl rfl⟩
        simp only [Op.copyDstWithin, Bool.and_eq_true, decide_eq_true_eq]
        omega
      · subst hv
        refine ⟨fun _ => ?_, rfl, v, hv1, hv2, Or.inr rfl⟩
        simp only [Op.copyDstWithin, Bool.and_eq_true, decide_eq_true_eq]
        omega
  · refine ⟨[], by simp only [extendV, if_neg hpos], fun h => absurd h hpos, ?_⟩
    intro op hop; simp at hop

theorem placeOps_xtend (imgW imgH : Int) (o : XineramaScreenInfo) (left top iw ih : Int)
    (hs vs : List Op) (hrect : scaledRect false imgW imgH o.width o.height = (left, top, iw, ih))
    (hhs : extendH o left iw = some hs) (hvs : extendV o top ih = some vs) :
    placeOps ImageMode.Xtend imgW imgH o =
      some (Op.blend 0 0 imgW imgH (o.x_org + left) (o.y_org + top) iw ih :: (hs ++ vs)) := by
  simp [placeOps, hrect, hhs, hvs]

/-- The `Xtend` branch as a whole: the scaled rectangle, the two lists of
copies, and their properties. -/
theorem xtend_spec (imgW imgH : Int) (o : XineramaScreenInfo) :
    ∃ left top iw ih hs vs,
      scaledRect false imgW imgH o.width o.height = (left, top, iw, ih) ∧
      extendH o left iw = some hs ∧ extendV o top ih = some vs ∧
      placeOps ImageMode.Xtend imgW imgH o =
        some (Op.blend 0 0 imgW imgH (o.x_org + left) (o.y_org + top) iw ih :: (hs ++ vs)) ∧
      (0 < left → ∀ px py, o.x_org ≤ px → px < o.x_org + o.width →
        o.y_org ≤ py → py < o.y_org + o.height →
        (o.x_org + left ≤ px ∧ px < o.x_org + left + iw) ∨
          ∃ op ∈ hs, op.copyDstHas px py = true) ∧
      (0 < top → ∀ px py, o.x_org ≤ px → px < o.x_org + o.width →
        o.y_org ≤ py → py < o.y_org + o.height →
        (o.y_org + top ≤ py ∧ py < o.y_org + top + ih) ∨
          ∃ op ∈ vs, op.copyDstHas px py = true) ∧
      (∀ op ∈ hs, (0 ≤ iw → op.copyDstWithin o (left + 1) 0 = true) ∧ op.isCopy = true ∧
        ∃ v, 1 ≤ v ∧ left - 1 + iw + v < o.width ∧
          (op = Op.copy_rect (o.x_org + left + 1 - v) o.y_org v o.height
                  (o.x_org + left + 1 - v - v) o.y_org ∨
           op = Op.copy_rect (o.x_org + (left - 1 + iw)) o.y_org v o.height
                  (o.x_org + (left - 1 + iw) + v) o.y_org)) ∧
      (∀ op ∈ vs, (0 ≤ ih → op.copyDstWithin o 0 (top + 1) = true) ∧ op.isCopy = true ∧
        ∃ v, 1 ≤ v ∧ top - 1 + ih + v < o.height ∧
          (op = Op.copy_rect o.x_org (o.y_org + top + 1 - v) o.width v
                  o.x_org (o.y_org + top + 1 - v - v) ∨
           op = Op.copy_rect o.x_org (o.y_org + (top - 1 + ih)) o.width v
                  o.x_org (o.y_org + (top - 1 + ih) + v))) := by
  obtain ⟨hs, hhs, hcols, hbh⟩ := extendH_spec o
    (scaledRect false imgW imgH o.width o.height).1
    (scaledRect false imgW imgH o.width o.height).2.2.1 rfl
  obtain ⟨vs, hvs, hrows, hbv⟩ := extendV_spec o
    (scaledRect false imgW imgH o.width o.height).2.1
    (scaledRect false imgW imgH o.width o.height).2.2.2 rfl
  exact ⟨_, _, _, _, hs, vs, rfl, hhs, hvs, placeOps_xtend imgW imgH o _ _ _ _ hs vs rfl hhs hvs,
    hcols, hrows, hbh, hbv⟩

/-! ## Lemmas: termination of `load_image` -/

/-- For an image with positive sides the mode dispatch ends in every mode, and
issues only blends and rectangle copies. -/
theorem placeOps_terminates (mode : ImageMode) (imgW imgH : Int) (o : XineramaScreenInfo)
    (hw : 0 < imgW) (hh : 0 < imgH) :
    ∃ ops, placeOps mode imgW imgH o = some ops ∧ ∀ op ∈ ops, op.isDrawOp = true := by
  cases mode with
  | Fill => exact ⟨_, placeOps_fill imgW imgH o, by simp [Op.isDrawOp]⟩
  | Full => exact ⟨_, placeOps_full imgW imgH o, by simp [Op.isDrawOp]⟩
  | Cover => exact ⟨_, placeOps_cover imgW imgH o, by simp [Op.isDrawOp]⟩
  | Center => exact ⟨_, placeOps_center imgW imgH o, by simp [Op.isDrawOp]⟩
  | Tile =>
    obtain ⟨ops, hops, hM, _⟩ := tileOps_spec o imgW imgH hw hh
    refine ⟨ops, by rw [placeOps_tile, hops], ?_⟩
    intro op hop
    obtain ⟨x, y, hxy, _⟩ := hM op hop
    rw [hxy]; rfl
  | Xtend =>
    obtain ⟨left, top, iw, ih, hs, vs, _, _, _, hops, _, _, hbh, hbv⟩ := xtend_spec imgW imgH o
    refine ⟨_, hops, ?_⟩
    intro op hop
    rcases List.mem_cons.1 hop with h | hop
    · rw [h]; rfl
    rcases List.mem_append.1 hop with hop | hop
    · exact Op.isDrawOp_of_isCopy op (hbh op hop).2.1
    · exact Op.isDrawOp_of_isCopy op (hbv op hop).2.1

theorem outputsLoop_terminates (mode : ImageMode) (imgW imgH : Int)
    (hw : 0 < imgW) (hh : 0 < imgH) (outputs : List XineramaScreenInfo) :
    ∃ ops, outputsLoop mode imgW imgH outputs = some ops ∧ ∀ op ∈ ops, op.isDrawOp = true := by
  induction outputs with
  | nil => exact ⟨[], rfl, by simp⟩
  | cons o rest ih =>
    obtain ⟨more, hmore, hdraw⟩ := ih
    obtain ⟨ops, hops, hd⟩ := placeOps_terminates mode imgW imgH (padOutput o) hw hh
    refine ⟨ops ++ more, by simp only [outputsLoop, hops, hmore, Option.map_some'], ?_⟩
    intro op hop
    rcases List.mem_append.1 hop with h | h
    · exact hd op h
    · exact hdraw op h

/-- The colour modifier tables after the loop over `alph`: every entry from
`o` on holds `(DATA8) alpha`, the entries before `o` are untouched. -/
theorem fillAlph_spec (alpha : Int) :
    ∀ (fuel o : Nat) (alph : Table), 256 ≤ o + fuel → ∀ i : Fin 256,
      fillAlph alpha fuel o alph i = if o ≤ i.val then castDATA8 alpha else alph i := by
  intro fuel
  induction fuel with
  | zero =>
    intro o alph h i
    have : ¬ o ≤ i.val := by have := i.isLt; omega
    simp [fillAlph, this]
  | succ n ih =>
    intro o alph h i
    by_cases ho : o < 256
    · simp only [fillAlph, dif_pos ho]
      rw [ih (o + 1) _ (by omega) i]
      by_cases h1 : o + 1 ≤ i.val
      · rw [if_pos h1, if_pos (by omega)]
      · rw [if_neg h1]
        by_cases h2 : o ≤ i.val
        · have hi : i = ⟨o, ho⟩ := Fin.ext (by simp; omega)
          rw [if_pos h2, hi, Function.update_same]
        · have hi : i ≠ ⟨o, ho⟩ := fun h => h2 (by rw [h])
          rw [if_neg h2, Function.update_noteq hi]
    · have : ¬ o ≤ i.val := by have := i.isLt; omega
      simp [fillAlph, ho, this]

theorem maskTables_alph (fresh : Tables) (alpha : Int) (i : Fin 256) :
    (maskTables fresh alpha).alph i = castDATA8 alpha := by
  simp [maskTables, fillAlph_spec alpha 256 0 fresh.alph (by omega) i]

/-- The decoded image is not touched by blends and copies onto the canvas. -/
theorem bufferPixel_draw (fresh : Tables) (ops rest : List Op) (cur : ImgRef)
    (tabs : Option Tables) (p : Pixel) (hdraw : ∀ op ∈ ops, op.isDrawOp = true) :
    bufferPixel fresh (ops ++ rest) cur tabs p = bufferPixel fresh rest cur tabs p := by
  induction ops with
  | nil => rfl
  | cons op ops ih =>
    have hop := hdraw op (List.mem_cons_self _ _)
    have ih' := ih (fun x hx => hdraw x (List.mem_cons_of_mem _ hx))
    cases op <;> simp [Op.isDrawOp] at hop <;> simpa [bufferPixel] using ih'

/-! ## Lemmas: moving the output origin -/

theorem blendInside_shift (x0 y0 W H a b c d x y w h : Int) :
    Op.blendInside ⟨x0, y0, W, H⟩ (Op.blend a b c d (x0 + x) (y0 + y) w h) =
      Op.blendInside ⟨0, 0, W, H⟩ (Op.blend a b c d x y w h) := by
  rw [Bool.eq_iff_iff]
  simp only [Op.blendInside, Bool.and_eq_true, decide_eq_true_eq]
  omega

theorem blendOverlaps_shift (x0 y0 W H a b c d x y w h : Int) :
    Op.blendOverlaps ⟨x0, y0, W, H⟩ (Op.blend a b c d (x0 + x) (y0 + y) w h) =
      Op.blendOverlaps ⟨0, 0, W, H⟩ (Op.blend a b c d x y w h) := by
  rw [Bool.eq_iff_iff]
  simp only [Op.blendOverlaps, Bool.and_eq_true, decide_eq_true_eq]
  omega

/-- In `Center` mode the output loop issues one blend per output, at native
size, centred in the padded rectangle. -/
theorem outputsLoop_center (imgW imgH : Int) (outputs : List XineramaScreenInfo) :
    outputsLoop ImageMode.Center imgW imgH outputs =
      some (outputs.map fun o =>
        Op.blend 0 0 imgW imgH (o.x_org + Int.tdiv (o.width + offset - imgW) 2)
          (o.y_org + Int.tdiv (o.height + offset - imgH) 2) imgW imgH) := by
  induction outputs with
  | nil => rfl
  | cons o rest ih =>
    simp only [outputsLoop, placeOps_center, ih, Option.map_some', List.map_cons]
    rfl

/-- The tile grid of a 40x40 image on a 200x100 output: 7 columns from -15 and
5 rows from -25, relative to the output origin. -/
theorem outputsLoop_tile_40_on_200_100 (x0 y0 : Int) :
    outputsLoop ImageMode.Tile 40 40 [⟨x0, y0, 200, 100⟩] =
      some ([-15, 25, 65, 105, 145, 185, 225].flatMap fun x =>
        [-25, 15, 55, 95, 135].map fun y => Op.blend 0 0 40 40 (x0 + x) (y0 + y) 40 40) := by
  simp only [outputsLoop, placeOps_tile]
  rfl

/-! ## Lemmas: the trace of `load_image` and the colour modifier -/

theorem Op.not_isModifierOp_of_isDrawOp (op : Op) (h : op.isDrawOp = true) :
    op.isModifierOp = false := by
  cases op <;> first | rfl | simp [Op.isDrawOp] at h

theorem filter_isModifierOp_draw (ops : List Op) (hdraw : ∀ op ∈ ops, op.isDrawOp = true) :
    ops.filter Op.isModifierOp = [] := by
  rw [List.filter_eq_nil_iff]
  intro op hop
  rw [Op.not_isModifierOp_of_isDrawOp op (hdraw op hop)]
  simp

/-- For an image with positive sides `load_image` returns 1; its trace is the
alpha-override mask, then the blends and copies of the output loop, then the
release of the decoded image. -/
theorem load_image_returns_one (loader : String → Option (Int × Int)) (fresh : Tables)
    (mode : ImageMode) (arg : String) (alpha : Int) (outputs : List XineramaScreenInfo)
    (imgW imgH : Int) (hload : loader arg = some (imgW, imgH)) (hw : 0 < imgW) (hh : 0 < imgH) :
    ∃ draws, (∀ op ∈ draws, op.isDrawOp = true) ∧
      load_image loader fresh mode arg alpha outputs =
        some (1, Op.context_set_image ImgRef.buffer :: alphaMask fresh alpha ++
          Op.context_set_image ImgRef.rootimg :: draws ++
          [Op.context_set_image ImgRef.buffer, Op.free_image,
           Op.context_set_image ImgRef.rootimg]) := by
  obtain ⟨draws, hdraws, hd⟩ := outputsLoop_terminates mode imgW imgH hw hh outputs
  exact ⟨draws, hd, load_image_loaded loader fresh mode arg alpha outputs imgW imgH draws hload hdraws⟩

/-- The sibling path of the `-root` case: rectangles reported by Xinerama that
lie inside the screen stay inside the canvas after padding. -/
theorem padded_xinerama_rectangle_fits_canvas (displayWidth displayHeight : Int)
    (o : XineramaScreenInfo) (hx : o.x_org + o.width ≤ displayWidth)
    (hy : o.y_org + o.height ≤ displayHeight) :
    (padOutput o).x_org + (padOutput o).width ≤ displayWidth + offset ∧
    (padOutput o).y_org + (padOutput o).height ≤ displayHeight + offset := by
  simp only [padOutput]
  omega

/-- A failed decode inside the command loop: the image command writes
`Bad image (arg)` to `stderr`, adds no Imlib2 call of its own, keeps `alpha`,
and the loop goes on with the next command. -/
theorem commandLoop_bad_image (env : Env) (outputs : List XineramaScreenInfo) (width height : Int)
    (flag : String) (mode : ImageMode) (arg : String) (rest : List String) (s : RenderState)
    (hflag : (flag, mode) ∈ [("-fill", ImageMode.Fill), ("-full", ImageMode.Full),
      ("-extend", ImageMode.Xtend), ("-tile", ImageMode.Tile), ("-center", ImageMode.Center),
      ("-cover", ImageMode.Cover)])
    (hload : env.loader arg = none) :
    commandLoop env outputs width height (flag :: arg :: rest) s =
      commandLoop env outputs width height rest
        { loopHead s with stderr := (loopHead s).stderr ++ ["Bad image (" ++ arg ++ ")\n"] } := by
  have hcmd : command env outputs width height flag (arg :: rest) (loopHead s) =
      Step.next 1 { loopHead s with
        stderr := (loopHead s).stderr ++ ["Bad image (" ++ arg ++ ")\n"] } := by
    simp only [List.mem_cons, Prod.mk.injEq, List.mem_singleton, List.not_mem_nil, or_false] at hflag
    rcases hflag with ⟨rfl, rfl⟩ | ⟨rfl, rfl⟩ | ⟨rfl, rfl⟩ | ⟨rfl, rfl⟩ | ⟨rfl, rfl⟩ | ⟨rfl, rfl⟩ <;>
      simp [command, imageCommand, load_image, hload]
  rw [commandLoop, hcmd]
  rfl

/-! ## Claims -/

/-- C2 (failing input): with `-full`, a 3840x2160 image and one 3840x2160
output at the origin, the padded output is 3890x2210; the quotient
`3890.0 / 3840` is rounded down, the product `3840 * aspect` is a `double`
just below 3890 and the cast truncates it to 3889, so the blended rectangle is
3889x2188 at `(0, 11)`: neither its width nor its height is that of the
output, and it touches the left edge only.  In exact arithmetic the same lines
give 3890x2188.  A 1680x1050 image on a 1680x1050 output is blended 1729 wide
on the 1730-wide padded rectangle in the same way. -/
theorem full_rounding_misses_both_edges :
    scaledRect false 3840 2160 3890 2210 = (0, 11, 3889, 2188) ∧
    scaledRectExact false 3840 2160 3890 2210 = (0, 11, 3890, 2188) ∧
    load_image (fun _ => some (3840, 2160)) identityTables ImageMode.Full "img" 255
        [⟨0, 0, 3840, 2160⟩] =
      some (1, [Op.context_set_image ImgRef.buffer, Op.context_set_image ImgRef.rootimg,
        Op.blend 0 0 3840 2160 0 11 3889 2188,
        Op.context_set_image ImgRef.buffer, Op.free_image,
        Op.context_set_image ImgRef.rootimg]) ∧
    ¬ ((3889 : Int) = (padOutput ⟨0, 0, 3840, 2160⟩).width ∨
       (2188 : Int) = (padOutput ⟨0, 0, 3840, 2160⟩).height) ∧
    scaledRect false 1680 1050 1730 1100 = (0, 9, 1729, 1081) := by
  have hrect : scaledRect false 3840 2160 3890 2210 = (0, 11, 3889, 2188) := by
    set_option maxRecDepth 20000 in decide
  have hexact : scaledRectExact false 3840 2160 3890 2210 = (0, 11, 3890, 2188) := by
    rw [scaledRectExact_eq _ _ _ _ _ (by decide) (by decide) (by decide) (by decide)]; decide
  have h1680 : scaledRect false 1680 1050 1730 1100 = (0, 9, 1729, 1081) := by
    set_option maxRecDepth 20000 in decide
  refine ⟨hrect, hexact, ?_, by decide, h1680⟩
  rw [load_image_loaded _ _ _ "img" 255 _ 3840 2160 _ rfl
    (by simp only [outputsLoop, placeOps_full, padOutput, offset]; rfl)]
  norm_num [hrect, alphaMask]

/-- C1 (failing input): with `-cover`, a 500x287 image and one 1920x1080
output at the origin, the padded output is 1970x1130; the height test
truncates `287 * 1970 / 500 = 1130.78` to 1130, which is not above 1130, so
the height-governed scale is taken and the blended rectangle is 1968 wide,
placed at `left = 1`: columns 0 and 1969 of the output are not covered. -/
theorem cover_leaves_columns_uncovered :
    scaledRect true 500 287 1970 1130 = (1, 0, 1968, 1130) ∧
    load_image (fun _ => some (500, 287)) identityTables ImageMode.Cover "img" 255
        [⟨0, 0, 1920, 1080⟩] =
      some (1, [Op.context_set_image ImgRef.buffer, Op.context_set_image ImgRef.rootimg,
        Op.blend 0 0 500 287 1 0 1968 1130,
        Op.context_set_image ImgRef.buffer, Op.free_image,
        Op.context_set_image ImgRef.rootimg]) ∧
    Op.dstHasCol 0 (Op.blend 0 0 500 287 1 0 1968 1130) = false ∧
    Op.dstHasCol 1969 (Op.blend 0 0 500 287 1 0 1968 1130) = false := by
  have hrect : scaledRect true 500 287 1970 1130 = (1, 0, 1968, 1130) := by
    set_option maxRecDepth 20000 in decide
  refine ⟨hrect, ?_, by decide, by decide⟩
  rw [load_image_loaded _ _ _ "img" 255 _ 500 287 _ rfl
    (by simp only [outputsLoop, placeOps_cover, padOutput, offset]; rfl)]
  norm_num [hrect, alphaMask]

/-- C3: in `Tile` mode, for an image with positive sides and a padded output
of positive size, the tile loops end and issue blends of the whole image at
native size such that every pixel of the output lies in the destination of
exactly one of them. -/
theorem tile_each_pixel_in_exactly_one_tile (imgW imgH : Int) (o : XineramaScreenInfo)
    (hw : 0 < imgW) (hh : 0 < imgH) (hW : 0 < o.width) (hH : 0 < o.height) :
    ∃ ops, placeOps ImageMode.Tile imgW imgH o = some ops ∧ ops ≠ [] ∧
      (∀ op ∈ ops, ∃ x y : Int,
        op = Op.blend 0 0 imgW imgH (o.x_org + x) (o.y_org + y) imgW imgH) ∧
      (∀ px py, o.x_org ≤ px → px < o.x_org + o.width →
        o.y_org ≤ py → py < o.y_org + o.height →
        ops.countP (Op.blendCovers px py) = 1) := by
  obtain ⟨ops, hops, hM, hcount⟩ := tileOps_spec o imgW imgH hw hh
  refine ⟨ops, by rw [placeOps_tile, hops], ?_, ?_, hcount⟩
  · intro hnil
    have h1 := hcount o.x_org o.y_org (le_refl _) (by omega) (le_refl _) (by omega)
    rw [hnil] at h1
    simp at h1
  · intro op hop
    obtain ⟨x, y, hxy, _⟩ := hM op hop
    exact ⟨x, y, hxy⟩

/-- Witness for C3: a 40x40 image on a 250x150 rectangle. -/
theorem tile_each_pixel_in_exactly_one_tile_witness :
    (0 : Int) < 40 ∧ (0 : Int) < 250 ∧ (0 : Int) < 150 ∧
    ∃ ops, placeOps ImageMode.Tile 40 40 ⟨0, 0, 250, 150⟩ = some ops ∧ ops ≠ [] ∧
      (∀ op ∈ ops, ∃ x y : Int, op = Op.blend 0 0 40 40 (0 + x) (0 + y) 40 40) ∧
      (∀ px py, (0 : Int) ≤ px → px < 0 + 250 → (0 : Int) ≤ py → py < 0 + 150 →
        ops.countP (Op.blendCovers px py) = 1) :=
  ⟨by decide, by decide, by decide,
    tile_each_pixel_in_exactly_one_tile 40 40 ⟨0, 0, 250, 150⟩
      (by decide) (by decide) (by decide) (by decide)⟩

/-- C4: in `Xtend` mode, for an image with positive sides and a padded output
of non-negative size, both doubling loops end and issue only the rectangle
copies of the doubling progression: for a width `v >= 1` with
`right + v < o.width`, a strip `v` wide and as high as the output copied from
column `left + 1 - v` to column `left + 1 - 2 v`, or from column `right` to
column `right + v` (and likewise for rows).  When the `Full` placement leaves
`left > 0`, every pixel of the output lies in the columns of the blended
rectangle or in the destination rectangle of a copy made by the doubling loop
over columns, the left bar included.  When it leaves `top > 0`, every pixel of
the output lies in the rows of the blended rectangle or in the destination
rectangle of a copy made by the loop over rows.  This holds whatever the
rounding of the blended width and height. -/
theorem extend_leaves_no_gap (imgW imgH : Int) (o : XineramaScreenInfo)
    (hw : 0 < imgW) (hh : 0 < imgH) (hW : 0 ≤ o.width) (hH : 0 ≤ o.height) :
    ∃ left top iw ih hs vs,
      scaledRect false imgW imgH o.width o.height = (left, top, iw, ih) ∧
      extendH o left iw = some hs ∧ extendV o top ih = some vs ∧
      placeOps ImageMode.Xtend imgW imgH o =
        some (Op.blend 0 0 imgW imgH (o.x_org + left) (o.y_org + top) iw ih :: (hs ++ vs)) ∧
      0 ≤ iw ∧ 0 ≤ ih ∧
      (∀ op ∈ hs, ∃ v, 1 ≤ v ∧ left - 1 + iw + v < o.width ∧
        (op = Op.copy_rect (o.x_org + left + 1 - v) o.y_org v o.height
                (o.x_org + left + 1 - v - v) o.y_org ∨
         op = Op.copy_rect (o.x_org + (left - 1 + iw)) o.y_org v o.height
                (o.x_org + (left - 1 + iw) + v) o.y_org)) ∧
      (∀ op ∈ vs, ∃ v, 1 ≤ v ∧ top - 1 + ih + v < o.height ∧
        (op = Op.copy_rect o.x_org (o.y_org + top + 1 - v) o.width v
                o.x_org (o.y_org + top + 1 - v - v) ∨
         op = Op.copy_rect o.x_org (o.y_org + (top - 1 + ih)) o.width v
                o.x_org (o.y_org + (top - 1 + ih) + v))) ∧
      (0 < left → ∀ px py, o.x_org ≤ px → px < o.x_org + o.width →
        o.y_org ≤ py → py < o.y_org + o.height →
        (o.x_org + left ≤ px ∧ px < o.x_org + left + iw) ∨
          ∃ op ∈ hs, op.copyDstHas px py = true) ∧
      (0 < top → ∀ px py, o.x_org ≤ px → px < o.x_org + o.width →
        o.y_org ≤ py → py < o.y_org + o.height →
        (o.y_org + top ≤ py ∧ py < o.y_org + top + ih) ∨
          ∃ op ∈ vs, op.copyDstHas px py = true) := by
  obtain ⟨left, top, iw, ih, hs, vs, hrect, hhs, hvs, hops, hcols, hrows, hbh, hbv⟩ :=
    xtend_spec imgW imgH o
  have hnn := scaledRect_size_nonneg false imgW imgH o.width o.height hw.le hh.le hW hH
  rw [hrect] at hnn
  exact ⟨left, top, iw, ih, hs, vs, hrect, hhs, hvs, hops, hnn.1, hnn.2,
    fun op hop => (hbh op hop).2.2, fun op hop => (hbv op hop).2.2, hcols, hrows⟩

/-- Witness for C4: a 1963x1130 image on a 1970x1130 rectangle, where the
`Full` placement leaves `left = 3` and the loop over columns makes six copies;
the pixel `(0, 500)` of the left bar lies in the destination of the third. -/
theorem extend_leaves_no_gap_witness :
    (0 : Int) < 1963 ∧ (0 : Int) < 1130 ∧ (0 : Int) ≤ 1970 ∧ (0 : Int) ≤ 1130 ∧
    scaledRect false 1963 1130 1970 1130 = (3, 0, 1963, 1130) ∧
    extendH ⟨0, 0, 1970, 1130⟩ 3 1963 =
      some [Op.copy_rect 3 0 1 1130 2 0, Op.copy_rect 1965 0 1 1130 1966 0,
        Op.copy_rect 2 0 2 1130 0 0, Op.copy_rect 1965 0 2 1130 1967 0,
        Op.copy_rect 0 0 4 1130 (-4) 0, Op.copy_rect 1965 0 4 1130 1969 0] ∧
    Op.copyDstHas 0 500 (Op.copy_rect 2 0 2 1130 0 0) = true ∧
    ∃ left top iw ih hs vs,
      scaledRect false 1963 1130 (1970 : Int) (1130 : Int) = (left, top, iw, ih) ∧
      extendH ⟨0, 0, 1970, 1130⟩ left iw = some hs ∧
      extendV ⟨0, 0, 1970, 1130⟩ top ih = some vs ∧
      placeOps ImageMode.Xtend 1963 1130 ⟨0, 0, 1970, 1130⟩ =
        some (Op.blend 0 0 1963 1130 (0 + left) (0 + top) iw ih :: (hs ++ vs)) ∧
      0 ≤ iw ∧ 0 ≤ ih ∧
      (∀ op ∈ hs, ∃ v, 1 ≤ v ∧ left - 1 + iw + v < 1970 ∧
        (op = Op.copy_rect (0 + left + 1 - v) 0 v 1130
                (0 + left + 1 - v - v) 0 ∨
         op = Op.copy_rect (0 + (left - 1 + iw)) 0 v 1130
                (0 + (left - 1 + iw) + v) 0)) ∧
      (∀ op ∈ vs, ∃ v, 1 ≤ v ∧ top - 1 + ih + v < 1130 ∧
        (op = Op.copy_rect 0 (0 + top + 1 - v) 1970 v
                0 (0 + top + 1 - v - v) ∨
         op = Op.copy_rect 0 (0 + (top - 1 + ih)) 1970 v
                0 (0 + (top - 1 + ih) + v))) ∧
      (0 < left → ∀ px py, (0 : Int) ≤ px → px < 0 + 1970 → (0 : Int) ≤ py → py < 0 + 1130 →
        (0 + left ≤ px ∧ px < 0 + left + iw) ∨ ∃ op ∈ hs, op.copyDstHas px py = true) ∧
      (0 < top → ∀ px py, (0 : Int) ≤ px → px < 0 + 1970 → (0 : Int) ≤ py → py < 0 + 1130 →
        (0 + top ≤ py ∧ py < 0 + top + ih) ∨ ∃ op ∈ vs, op.copyDstHas px py = true) :=
  ⟨by decide, by decide, by decide, by decide,
    by set_option maxRecDepth 20000 in decide, rfl, by decide,
    extend_leaves_no_gap 1963 1130 ⟨0, 0, 1970, 1130⟩
      (by decide) (by decide) (by decide) (by decide)⟩

/-- C5 (counterexample): with `-extend`, a 1963x1130 image and two 1920x1080
outputs side by side (screen 3840x1080, canvas 3890x1130), each output is
padded to 1970x1130, the `Full` rectangle starts at `left = 3`, and the third
pass of the doubling loop, with `w = 4`, copies for the first output to
columns 1969..1972 and for the second output, whose columns are 1920..3889, to
columns 1916..1919: both destinations lie inside the canvas and leave the
output rectangle. -/
theorem extend_copy_leaves_output :
    load_image (fun _ => some (1963, 1130)) identityTables ImageMode.Xtend "img" 255
        [⟨0, 0, 1920, 1080⟩, ⟨1920, 0, 1920, 1080⟩] =
      some (1, [Op.context_set_image ImgRef.buffer, Op.context_set_image ImgRef.rootimg,
        Op.blend 0 0 1963 1130 3 0 1963 1130,
        Op.copy_rect 3 0 1 1130 2 0, Op.copy_rect 1965 0 1 1130 1966 0,
        Op.copy_rect 2 0 2 1130 0 0, Op.copy_rect 1965 0 2 1130 1967 0,
        Op.copy_rect 0 0 4 1130 (-4) 0, Op.copy_rect 1965 0 4 1130 1969 0,
        Op.blend 0 0 1963 1130 1923 0 1963 1130,
        Op.copy_rect 1923 0 1 1130 1922 0, Op.copy_rect 3885 0 1 1130 3886 0,
        Op.copy_rect 1922 0 2 1130 1920 0, Op.copy_rect 3885 0 2 1130 3887 0,
        Op.copy_rect 1920 0 4 1130 1916 0, Op.copy_rect 3885 0 4 1130 3889 0,
        Op.context_set_image ImgRef.buffer, Op.free_image,
        Op.context_set_image ImgRef.rootimg]) ∧
    Op.copyDstWithin (padOutput ⟨0, 0, 1920, 1080⟩) 0 0 (Op.copy_rect 1965 0 4 1130 1969 0) = false ∧
    Op.copyDstWithin ⟨0, 0, 3890, 1130⟩ 0 0 (Op.copy_rect 1965 0 4 1130 1969 0) = true ∧
    Op.copyDstWithin (padOutput ⟨1920, 0, 1920, 1080⟩) 0 0 (Op.copy_rect 1920 0 4 1130 1916 0) = false ∧
    Op.copyDstWithin ⟨0, 0, 3890, 1130⟩ 0 0 (Op.copy_rect 1920 0 4 1130 1916 0) = true := by
  have hrect : scaledRect false 1963 1130 1970 1130 = (3, 0, 1963, 1130) := by
    set_option maxRecDepth 20000 in decide
  have hops : outputsLoop ImageMode.Xtend 1963 1130
      [⟨0, 0, 1920, 1080⟩, ⟨1920, 0, 1920, 1080⟩] =
      some [Op.blend 0 0 1963 1130 3 0 1963 1130,
        Op.copy_rect 3 0 1 1130 2 0, Op.copy_rect 1965 0 1 1130 1966 0,
        Op.copy_rect 2 0 2 1130 0 0, Op.copy_rect 1965 0 2 1130 1967 0,
        Op.copy_rect 0 0 4 1130 (-4) 0, Op.copy_rect 1965 0 4 1130 1969 0,
        Op.blend 0 0 1963 1130 1923 0 1963 1130,
        Op.copy_rect 1923 0 1 1130 1922 0, Op.copy_rect 3885 0 1 1130 3886 0,
        Op.copy_rect 1922 0 2 1130 1920 0, Op.copy_rect 3885 0 2 1130 3887 0,
        Op.copy_rect 1920 0 4 1130 1916 0, Op.copy_rect 3885 0 4 1130 3889 0] := by
    have hpad1 : padOutput ⟨0, 0, 1920, 1080⟩ = ⟨0, 0, 1970, 1130⟩ := rfl
    have hpad2 : padOutput ⟨1920, 0, 1920, 1080⟩ = ⟨1920, 0, 1970, 1130⟩ := rfl
    simp only [outputsLoop, hpad1, hpad2]
    rw [placeOps_xtend 1963 1130 ⟨0, 0, 1970, 1130⟩ 3 0 1963 1130 _ _ hrect rfl rfl,
      placeOps_xtend 1963 1130 ⟨1920, 0, 1970, 1130⟩ 3 0 1963 1130 _ _ hrect rfl rfl]
    rfl
  refine ⟨?_, by decide, by decide, by decide, by decide⟩
  rw [load_image_loaded _ _ _ "img" 255 _ 1963 1130 _ rfl hops]
  simp [alphaMask]

/-- C5 (amended): in `Xtend` mode, for an image with positive sides and a
padded output of non-negative size, both doubling loops end and every op they
issue is a rectangle copy; the destination of a copy made by the loop over
columns spans exactly the rows of the output and leaves the output by at most
`left + 1` columns on either side, and the destination of a copy made by the
loop over rows spans exactly the columns of the output and leaves it by at
most `top + 1` rows on either side. -/
theorem extend_copies_stay_near_output (imgW imgH : Int) (o : XineramaScreenInfo)
    (hw : 0 < imgW) (hh : 0 < imgH) (hW : 0 ≤ o.width) (hH : 0 ≤ o.height) :
    ∃ left top iw ih hs vs,
      scaledRect false imgW imgH o.width o.height = (left, top, iw, ih) ∧
      extendH o left iw = some hs ∧ extendV o top ih = some vs ∧
      placeOps ImageMode.Xtend imgW imgH o =
        some (Op.blend 0 0 imgW imgH (o.x_org + left) (o.y_org + top) iw ih :: (hs ++ vs)) ∧
      (∀ op ∈ hs, op.isCopy = true ∧ op.copyDstWithin o (left + 1) 0 = true) ∧
      (∀ op ∈ vs, op.isCopy = true ∧ op.copyDstWithin o 0 (top + 1) = true) := by
  obtain ⟨left, top, iw, ih, hs, vs, hrect, hhs, hvs, hops, _, _, hbh, hbv⟩ :=
    xtend_spec imgW imgH o
  have hnn := scaledRect_size_nonneg false imgW imgH o.width o.height hw.le hh.le hW hH
  rw [hrect] at hnn
  exact ⟨left, top, iw, ih, hs, vs, hrect, hhs, hvs, hops,
    fun op hop => ⟨(hbh op hop).2.1, (hbh op hop).1 hnn.1⟩,
    fun op hop => ⟨(hbv op hop).2.1, (hbv op hop).1 hnn.2⟩⟩

/-- Witness for C5 (amended): a 1963x1130 image on a 1970x1130 rectangle. -/
theorem extend_copies_stay_near_output_witness :
    (0 : Int) < 1963 ∧ (0 : Int) < 1130 ∧ (0 : Int) ≤ 1970 ∧ (0 : Int) ≤ 1130 ∧
    ∃ left top iw ih hs vs,
      scaledRect false 1963 1130 (1970 : Int) (1130 : Int) = (left, top, iw, ih) ∧
      extendH ⟨0, 0, 1970, 1130⟩ left iw = some hs ∧
      extendV ⟨0, 0, 1970, 1130⟩ top ih = some vs ∧
      placeOps ImageMode.Xtend 1963 1130 ⟨0, 0, 1970, 1130⟩ =
        some (Op.blend 0 0 1963 1130 (0 + left) (0 + top) iw ih :: (hs ++ vs)) ∧
      (∀ op ∈ hs, op.isCopy = true ∧
        op.copyDstWithin ⟨0, 0, 1970, 1130⟩ (left + 1) 0 = true) ∧
      (∀ op ∈ vs, op.isCopy = true ∧
        op.copyDstWithin ⟨0, 0, 1970, 1130⟩ 0 (top + 1) = true) :=
  ⟨by decide, by decide, by decide, by decide,
    extend_copies_stay_near_output 1963 1130 ⟨0, 0, 1970, 1130⟩
      (by decide) (by decide) (by decide) (by decide)⟩

/-- C6 (counterexample): with two 100x100 outputs at `(0, 0)` and `(100, 0)`
and a 50x50 image in `Center` mode, `load_image` pads each output to 150x150
and blends the image at offset `(50, 50)` from each origin, not `(25, 25)`. -/
theorem center_offset_is_not_25 :
    load_image (fun _ => some (50, 50)) identityTables ImageMode.Center "img" 255
        [⟨0, 0, 100, 100⟩, ⟨100, 0, 100, 100⟩] =
      some (1, [Op.context_set_image ImgRef.buffer, Op.context_set_image ImgRef.rootimg,
        Op.blend 0 0 50 50 50 50 50 50, Op.blend 0 0 50 50 150 50 50 50,
        Op.context_set_image ImgRef.buffer, Op.free_image,
        Op.context_set_image ImgRef.rootimg]) ∧
    load_image (fun _ => some (50, 50)) identityTables ImageMode.Center "img" 255
        [⟨0, 0, 100, 100⟩, ⟨100, 0, 100, 100⟩] ≠
      some (1, [Op.context_set_image ImgRef.buffer, Op.context_set_image ImgRef.rootimg,
        Op.blend 0 0 50 50 (0 + 25) (0 + 25) 50 50, Op.blend 0 0 50 50 (100 + 25) (0 + 25) 50 50,
        Op.context_set_image ImgRef.buffer, Op.free_image,
        Op.context_set_image ImgRef.rootimg]) := by
  have htrace : load_image (fun _ => some (50, 50)) identityTables ImageMode.Center "img" 255
      [⟨0, 0, 100, 100⟩, ⟨100, 0, 100, 100⟩] =
      some (1, [Op.context_set_image ImgRef.buffer, Op.context_set_image ImgRef.rootimg,
        Op.blend 0 0 50 50 50 50 50 50, Op.blend 0 0 50 50 150 50 50 50,
        Op.context_set_image ImgRef.buffer, Op.free_image,
        Op.context_set_image ImgRef.rootimg]) := by
    rw [load_image_loaded _ _ _ "img" 255 _ 50 50 _ rfl (outputsLoop_center 50 50 _)]
    simp [alphaMask, offset]
    decide
  refine ⟨htrace, ?_⟩
  rw [htrace]
  simp

/-- C6 (amended): in `Center` mode, for every image that loads and every
topology, `load_image` returns 1 and issues exactly one blend per output, with
the whole image as source and a destination of native size `imgW x imgH` at
`left = (o.width - imgW) / 2`, `top = (o.height - imgH) / 2` from the output
origin, where `o.width` and `o.height` are the padded sizes (the size of the
output plus `offset = 50`).  For two 100x100 outputs and a 50x50 image the
offset is `(50, 50)` from each origin. -/
theorem center_blends_native_size_centred_in_padded_output
    (loader : String → Option (Int × Int)) (fresh : Tables) (arg : String) (alpha : Int)
    (outputs : List XineramaScreenInfo) (imgW imgH : Int)
    (hload : loader arg = some (imgW, imgH)) :
    load_image loader fresh ImageMode.Center arg alpha outputs =
      some (1, Op.context_set_image ImgRef.buffer :: alphaMask fresh alpha ++
        Op.context_set_image ImgRef.rootimg ::
        (outputs.map fun o =>
          Op.blend 0 0 imgW imgH
            (o.x_org + Int.tdiv ((padOutput o).width - imgW) 2)
            (o.y_org + Int.tdiv ((padOutput o).height - imgH) 2) imgW imgH) ++
        [Op.context_set_image ImgRef.buffer, Op.free_image,
         Op.context_set_image ImgRef.rootimg]) ∧
    (∀ x1 y1 x2 y2 : Int,
      outputsLoop ImageMode.Center 50 50 [⟨x1, y1, 100, 100⟩, ⟨x2, y2, 100, 100⟩] =
        some [Op.blend 0 0 50 50 (x1 + 50) (y1 + 50) 50 50,
          Op.blend 0 0 50 50 (x2 + 50) (y2 + 50) 50 50]) := by
  refine ⟨?_, ?_⟩
  · rw [load_image_loaded loader fresh _ arg alpha outputs imgW imgH _ hload
      (outputsLoop_center imgW imgH outputs)]
    rfl
  · intro x1 y1 x2 y2
    rw [outputsLoop_center]
    rfl

/-- Witness for C6 (amended): two 100x100 outputs and a 50x50 image. -/
theorem center_blends_native_size_centred_in_padded_output_witness :
    load_image (fun _ => some (50, 50)) identityTables ImageMode.Center "img" 255
        [⟨0, 0, 100, 100⟩, ⟨100, 0, 100, 100⟩] =
      some (1, Op.context_set_image ImgRef.buffer :: alphaMask identityTables 255 ++
        Op.context_set_image ImgRef.rootimg ::
        ([⟨0, 0, 100, 100⟩, ⟨100, 0, 100, 100⟩].map fun o : XineramaScreenInfo =>
          Op.blend 0 0 50 50
            (o.x_org + Int.tdiv ((padOutput o).width - 50) 2)
            (o.y_org + Int.tdiv ((padOutput o).height - 50) 2) 50 50) ++
        [Op.context_set_image ImgRef.buffer, Op.free_image,
         Op.context_set_image ImgRef.rootimg]) :=
  (center_blends_native_size_centred_in_padded_output (fun _ => some (50, 50)) identityTables
    "img" 255 [⟨0, 0, 100, 100⟩, ⟨100, 0, 100, 100⟩] 50 50 rfl).1

/-- C7 (counterexample): for a single 200x100 output at the origin and a
40x40 image in `Tile` mode, `load_image` blends 35 copies; 8 of them, not 15,
lie entirely inside the 200x100 rectangle, only 24 share a pixel with it (the
other 11 are not edge tiles of it), and the first column, -15, is not
congruent modulo 40 to `(200 - 40) / 2 = 80`. -/
theorem tile_scenario_eight_inside_output :
    ∃ tiles,
      tiles = ([-15, 25, 65, 105, 145, 185, 225].flatMap fun x =>
        [-25, 15, 55, 95, 135].map fun y => Op.blend 0 0 40 40 (0 + x) (0 + y) 40 40) ∧
      load_image (fun _ => some (40, 40)) identityTables ImageMode.Tile "img" 255
          [⟨0, 0, 200, 100⟩] =
        some (1, Op.context_set_image ImgRef.buffer ::
          Op.context_set_image ImgRef.rootimg :: tiles ++
          [Op.context_set_image ImgRef.buffer, Op.free_image,
           Op.context_set_image ImgRef.rootimg]) ∧
      tiles.length = 35 ∧
      tiles.countP (Op.blendInside ⟨0, 0, 200, 100⟩) = 8 ∧
      tiles.countP (Op.blendOverlaps ⟨0, 0, 200, 100⟩) = 24 ∧
      Op.blend 0 0 40 40 (0 + (-15)) (0 + (-25)) 40 40 ∈ tiles ∧
      ¬ ((-15 - Int.tdiv (200 - 40) 2) % 40 = 0) := by
  refine ⟨_, rfl, ?_, rfl, by decide, by decide, ?_, by decide⟩
  · rw [load_image_loaded _ _ _ "img" 255 _ 40 40 _ rfl (outputsLoop_tile_40_on_200_100 0 0)]
    simp [alphaMask]
  · simp

/-- C7 (amended): for a single 200x100 output at any origin and a 40x40 image
in `Tile` mode, `load_image` returns 1 and blends 7 x 5 = 35 copies of the
image at native size; the rectangle it works with is the output padded to
250x150; exactly 5 x 3 = 15 of the copies lie entirely inside the padded
rectangle, every copy shares pixels with it (so the other 20 are partial edge
tiles of it), and every tile position is congruent modulo 40 on each axis to
the centred offset of the padded rectangle, `((250 - 40) / 2, (150 - 40) / 2)`. -/
theorem tile_scenario_fifteen_inside_padded (loader : String → Option (Int × Int))
    (fresh : Tables) (arg : String) (alpha x0 y0 : Int) (hload : loader arg = some (40, 40)) :
    ∃ tiles,
      tiles = ([-15, 25, 65, 105, 145, 185, 225].flatMap fun x =>
        [-25, 15, 55, 95, 135].map fun y => Op.blend 0 0 40 40 (x0 + x) (y0 + y) 40 40) ∧
      load_image loader fresh ImageMode.Tile arg alpha [⟨x0, y0, 200, 100⟩] =
        some (1, Op.context_set_image ImgRef.buffer :: alphaMask fresh alpha ++
          Op.context_set_image ImgRef.rootimg :: tiles ++
          [Op.context_set_image ImgRef.buffer, Op.free_image,
           Op.context_set_image ImgRef.rootimg]) ∧
      tiles.length = 35 ∧
      padOutput ⟨x0, y0, 200, 100⟩ = ⟨x0, y0, 250, 150⟩ ∧
      tiles.countP (Op.blendInside (padOutput ⟨x0, y0, 200, 100⟩)) = 15 ∧
      (∀ op ∈ tiles, Op.blendOverlaps (padOutput ⟨x0, y0, 200, 100⟩) op = true) ∧
      (∀ op ∈ tiles, ∃ x y : Int, op = Op.blend 0 0 40 40 (x0 + x) (y0 + y) 40 40 ∧
        (x - Int.tdiv ((padOutput ⟨x0, y0, 200, 100⟩).width - 40) 2) % 40 = 0 ∧
        (y - Int.tdiv ((padOutput ⟨x0, y0, 200, 100⟩).height - 40) 2) % 40 = 0) := by
  have hpad : padOutput ⟨x0, y0, 200, 100⟩ = ⟨x0, y0, 250, 150⟩ := rfl
  refine ⟨_, rfl, ?_, rfl, hpad, ?_, ?_, ?_⟩
  · rw [load_image_loaded loader fresh _ arg alpha _ 40 40 _ hload
      (outputsLoop_tile_40_on_200_100 x0 y0)]
  · rw [hpad]
    simp only [List.flatMap_cons, List.flatMap_nil, List.map_cons, List.map_nil, List.cons_append,
      List.nil_append, List.append_nil, List.countP_cons, List.countP_nil, blendInside_shift]
    decide
  · rw [hpad]
    simp only [List.flatMap_cons, List.flatMap_nil, List.map_cons, List.map_nil, List.cons_append,
      List.nil_append, List.append_nil, List.forall_mem_cons, blendOverlaps_shift]
    simp [Op.blendOverlaps]
  · intro op hop
    rw [hpad]
    simp only [List.flatMap_cons, List.flatMap_nil, List.map_cons, List.map_nil, List.cons_append,
      List.nil_append, List.append_nil, List.mem_cons, List.mem_singleton, List.not_mem_nil,
      or_false] at hop
    rcases hop with h | h | h | h | h | h | h | h | h | h | h | h | h | h | h | h | h | h |
      h | h | h | h | h | h | h | h | h | h | h | h | h | h | h | h | h <;>
      exact ⟨_, _, h, by dsimp only; decide, by dsimp only; decide⟩

/-- Witness for C7 (amended): the output at the origin, an opaque image. -/
theorem tile_scenario_fifteen_inside_padded_witness :
    ∃ tiles,
      tiles = ([-15, 25, 65, 105, 145, 185, 225].flatMap fun x =>
        [-25, 15, 55, 95, 135].map fun y => Op.blend 0 0 40 40 (0 + x) (0 + y) 40 40) ∧
      load_image (fun _ => some (40, 40)) identityTables ImageMode.Tile "img" 255
          [⟨0, 0, 200, 100⟩] =
        some (1, Op.context_set_image ImgRef.buffer :: alphaMask identityTables 255 ++
          Op.context_set_image ImgRef.rootimg :: tiles ++
          [Op.context_set_image ImgRef.buffer, Op.free_image,
           Op.context_set_image ImgRef.rootimg]) ∧
      tiles.length = 35 ∧
      padOutput ⟨0, 0, 200, 100⟩ = ⟨0, 0, 250, 150⟩ ∧
      tiles.countP (Op.blendInside (padOutput ⟨0, 0, 200, 100⟩)) = 15 ∧
      (∀ op ∈ tiles, Op.blendOverlaps (padOutput ⟨0, 0, 200, 100⟩) op = true) ∧
      (∀ op ∈ tiles, ∃ x y : Int, op = Op.blend 0 0 40 40 (0 + x) (0 + y) 40 40 ∧
        (x - Int.tdiv ((padOutput ⟨0, 0, 200, 100⟩).width - 40) 2) % 40 = 0 ∧
        (y - Int.tdiv ((padOutput ⟨0, 0, 200, 100⟩).height - 40) 2) % 40 = 0) :=
  tile_scenario_fifteen_inside_padded (fun _ => some (40, 40)) identityTables "img" 255 0 0 rfl

/-- C8 (failing input): with `-root`, on every screen, `main` creates the
canvas as `(DisplayWidth + offset) x (DisplayHeight + offset)` and sets the
synthetic rectangle to that same size; `load_image` pads it once more, so the
rectangle the placement works with ends `offset = 50` columns and 50 rows
beyond the canvas, and `-fill` blends onto a destination of that size.  On a
1920x1080 screen: canvas 1970x1130, padded rectangle 2020x1180. -/
theorem root_rectangle_padded_twice (env : Env) (xinerama : List XineramaScreenInfo)
    (displayWidth displayHeight imgW imgH : Int) :
    (renderScreen env xinerama displayWidth displayHeight ["-root", "-fill", "img"]).1 =
      (displayWidth + 50, displayHeight + 50) ∧
    (renderScreen env xinerama displayWidth displayHeight ["-root", "-fill", "img"]).2.1 =
      [⟨0, 0, displayWidth + 50, displayHeight + 50⟩] ∧
    padOutput ⟨0, 0, displayWidth + 50, displayHeight + 50⟩ =
      ⟨0, 0, displayWidth + 50 + 50, displayHeight + 50 + 50⟩ ∧
    ¬ ((padOutput ⟨0, 0, displayWidth + 50, displayHeight + 50⟩).x_org +
        (padOutput ⟨0, 0, displayWidth + 50, displayHeight + 50⟩).width ≤ displayWidth + 50) ∧
    ¬ ((padOutput ⟨0, 0, displayWidth + 50, displayHeight + 50⟩).y_org +
        (padOutput ⟨0, 0, displayWidth + 50, displayHeight + 50⟩).height ≤ displayHeight + 50) ∧
    outputsLoop ImageMode.Fill imgW imgH [⟨0, 0, displayWidth + 50, displayHeight + 50⟩] =
      some [Op.blend 0 0 imgW imgH 0 0 (displayWidth + 50 + 50) (displayHeight + 50 + 50)] ∧
    (renderScreen env xinerama 1920 1080 ["-root", "-fill", "img"]).1 = (1970, 1130) ∧
    padOutput ⟨0, 0, 1970, 1130⟩ = ⟨0, 0, 2020, 1180⟩ := by
  have hpad : padOutput ⟨0, 0, displayWidth + 50, displayHeight + 50⟩ =
      ⟨0, 0, displayWidth + 50 + 50, displayHeight + 50 + 50⟩ := rfl
  refine ⟨rfl, ?_, hpad, ?_, ?_, ?_, rfl, rfl⟩
  · simp [renderScreen, screenOutputs, optRoot, offset]
  · rw [hpad]
    show ¬ ((0 : Int) + (displayWidth + 50 + 50) ≤ displayWidth + 50)
    omega
  · rw [hpad]
    show ¬ ((0 : Int) + (displayHeight + 50 + 50) ≤ displayHeight + 50)
    omega
  · simp only [outputsLoop, placeOps_fill, Option.map_some', hpad]
    rfl

/-- C9: when the image cannot be loaded, `load_image` returns 0 in every mode,
for every alpha and topology, with an empty trace: no blend, no copy and no
colour modifier call is issued, so the canvas is as before; for each of the six
image commands `main` then writes `Bad image (arg)` to `stderr`, leaves `alpha`
and the trace as they were after the loop head, and goes on with the next
command.  Whenever the image loads (Imlib2 images have positive sides),
`load_image` returns 1. -/
theorem decode_failure_is_atomic (env : Env) (outputs : List XineramaScreenInfo)
    (width height : Int) :
    (∀ (fresh : Tables) (mode : ImageMode) (arg : String) (alpha : Int)
        (outs : List XineramaScreenInfo), env.loader arg = none →
      load_image env.loader fresh mode arg alpha outs = some (0, [])) ∧
    (∀ (flag : String) (mode : ImageMode) (arg : String) (rest : List String) (s : RenderState),
      (flag, mode) ∈ [("-fill", ImageMode.Fill), ("-full", ImageMode.Full),
        ("-extend", ImageMode.Xtend), ("-tile", ImageMode.Tile), ("-center", ImageMode.Center),
        ("-cover", ImageMode.Cover)] →
      env.loader arg = none →
      commandLoop env outputs width height (flag :: arg :: rest) s =
        commandLoop env outputs width height rest
          { loopHead s with stderr := (loopHead s).stderr ++ ["Bad image (" ++ arg ++ ")\n"] }) ∧
    (∀ (fresh : Tables) (mode : ImageMode) (arg : String) (alpha : Int)
        (outs : List XineramaScreenInfo) (imgW imgH : Int),
      env.loader arg = some (imgW, imgH) → 0 < imgW → 0 < imgH →
      ∃ ops, load_image env.loader fresh mode arg alpha outs = some (1, ops)) := by
  refine ⟨?_, ?_, ?_⟩
  · intro fresh mode arg alpha outs hload
    simp only [load_image, hload]
  · intro flag mode arg rest s hflag hload
    exact commandLoop_bad_image env outputs width height flag mode arg rest s hflag hload
  · intro fresh mode arg alpha outs imgW imgH hload hw hh
    obtain ⟨draws, _, hret⟩ :=
      load_image_returns_one env.loader fresh mode arg alpha outs imgW imgH hload hw hh
    exact ⟨_, hret⟩

/-- Witness for C9: a decoder that fails on every file, and one that decodes
every file to a 40x30 image. -/
theorem decode_failure_is_atomic_witness :
    load_image (fun _ => none) identityTables ImageMode.Tile "img" 128
      [⟨0, 0, 1920, 1080⟩] = some (0, []) ∧
    commandLoop ⟨fun _ => none, identityTables, fun _ _ => none, fun _ => none⟩
        [⟨0, 0, 1920, 1080⟩] 1970 1130 ["-tile", "img"] ⟨255, false, [], []⟩ =
      commandLoop ⟨fun _ => none, identityTables, fun _ _ => none, fun _ => none⟩
        [⟨0, 0, 1920, 1080⟩] 1970 1130 []
        { loopHead ⟨255, false, [], []⟩ with
          stderr := (loopHead ⟨255, false, [], []⟩).stderr ++ ["Bad image (" ++ "img" ++ ")\n"] } ∧
    ∃ ops, load_image (fun _ => some (40, 30)) identityTables ImageMode.Tile "img" 128
      [⟨0, 0, 1920, 1080⟩] = some (1, ops) :=
  ⟨(decode_failure_is_atomic ⟨fun _ => none, identityTables, fun _ _ => none, fun _ => none⟩
      [⟨0, 0, 1920, 1080⟩] 1970 1130).1 identityTables ImageMode.Tile "img" 128 _ rfl,
   (decode_failure_is_atomic ⟨fun _ => none, identityTables, fun _ _ => none, fun _ => none⟩
      [⟨0, 0, 1920, 1080⟩] 1970 1130).2.1 "-tile" ImageMode.Tile "img" [] ⟨255, false, [], []⟩
      (by simp) rfl,
   (decode_failure_is_atomic ⟨fun _ => some (40, 30), identityTables, fun _ _ => none, fun _ => none⟩
      [⟨0, 0, 1920, 1080⟩] 1970 1130).2.2 identityTables ImageMode.Tile "img" 128 _ 40 30 rfl
      (by decide) (by decide)⟩

/-- C10: for an image that loads and an opacity `0 <= a < 255`, the colour
modifier calls of `load_image` are: create, set tables, apply, free; the
tables it sets have `alph[i] = a` at every index and the `red`, `green` and
`blue` tables read from the new modifier, and every pixel of the decoded image
ends with alpha `a` and its colour channels mapped through those three tables.
For `a >= 255` `load_image` makes no colour modifier call, and every pixel of
the decoded image is what the identity tables give. -/
theorem alpha_mask_forces_alpha_only (loader : String → Option (Int × Int)) (fresh : Tables)
    (mode : ImageMode) (arg : String) (a : Int) (outputs : List XineramaScreenInfo)
    (imgW imgH : Int) (hload : loader arg = some (imgW, imgH)) (hw : 0 < imgW) (hh : 0 < imgH) :
    ∃ ops, load_image loader fresh mode arg a outputs = some (1, ops) ∧
      (0 ≤ a → a < 255 →
        ops.filter Op.isModifierOp =
          [Op.create_color_modifier, Op.set_color_modifier_tables (maskTables fresh a),
           Op.apply_color_modifier, Op.free_color_modifier] ∧
        (∀ i : Fin 256, (((maskTables fresh a).alph i).val : Int) = a) ∧
        (maskTables fresh a).red = fresh.red ∧ (maskTables fresh a).green = fresh.green ∧
        (maskTables fresh a).blue = fresh.blue ∧
        (∀ (cur : ImgRef) (tabs : Option Tables) (p : Pixel),
          bufferPixel fresh ops cur tabs p =
            { r := fresh.red p.r, g := fresh.green p.g, b := fresh.blue p.b, a := castDATA8 a } ∧
          ((bufferPixel fresh ops cur tabs p).a.val : Int) = a)) ∧
      (255 ≤ a →
        ops.filter Op.isModifierOp = [] ∧
        (∀ (cur : ImgRef) (tabs : Option Tables) (p : Pixel),
          bufferPixel fresh ops cur tabs p = identityTables.apply p)) := by
  obtain ⟨draws, hd, hret⟩ :=
    load_image_returns_one loader fresh mode arg a outputs imgW imgH hload hw hh
  have hfd := filter_isModifierOp_draw draws hd
  refine ⟨_, hret, ?_, ?_⟩
  · intro h0 h255
    have hval : ((castDATA8 a).val : Int) = a := by
      simp only [castDATA8]
      omega
    refine ⟨?_, ?_, ?_, ?_, ?_, ?_⟩
    · simp [alphaMask, h255, List.filter_cons, List.filter_append, hfd, Op.isModifierOp]
    · intro i
      rw [maskTables_alph]
      exact hval
    · simp only [maskTables]
    · simp only [maskTables]
    · simp only [maskTables]
    · intro cur tabs p
      have hpix : bufferPixel fresh
          (Op.context_set_image ImgRef.buffer :: alphaMask fresh a ++
            Op.context_set_image ImgRef.rootimg :: draws ++
            [Op.context_set_image ImgRef.buffer, Op.free_image,
             Op.context_set_image ImgRef.rootimg]) cur tabs p =
          { r := fresh.red p.r, g := fresh.green p.g, b := fresh.blue p.b, a := castDATA8 a } := by
        simp only [alphaMask, if_pos h255, List.cons_append, List.nil_append, bufferPixel,
          List.append_eq]
        rw [bufferPixel_draw fresh draws _ _ _ _ hd]
        simp only [bufferPixel, Tables.apply, maskTables_alph]
        simp only [maskTables]
      exact ⟨hpix, by rw [hpix]; exact hval⟩
  · intro h255
    have hn : ¬ a < 255 := by omega
    refine ⟨?_, ?_⟩
    · simp [alphaMask, hn, List.filter_cons, List.filter_append, hfd, Op.isModifierOp]
    · intro cur tabs p
      simp only [alphaMask, if_neg hn, List.cons_append, List.nil_append, bufferPixel,
        List.append_eq]
      rw [bufferPixel_draw fresh draws _ _ _ _ hd]
      simp [bufferPixel, Tables.apply, identityTables]

/-- Witness for C10: a 40x30 image at opacity 128 on one 1920x1080 output. -/
theorem alpha_mask_forces_alpha_only_witness :
    (0 : Int) < 40 ∧ (0 : Int) < 30 ∧
    ∃ ops, load_image (fun _ => some (40, 30)) identityTables ImageMode.Center "img" 128
        [⟨0, 0, 1920, 1080⟩] = some (1, ops) ∧
      ((0 : Int) ≤ 128 → (128 : Int) < 255 →
        ops.filter Op.isModifierOp =
          [Op.create_color_modifier, Op.set_color_modifier_tables (maskTables identityTables 128),
           Op.apply_color_modifier, Op.free_color_modifier] ∧
        (∀ i : Fin 256, (((maskTables identityTables 128).alph i).val : Int) = 128) ∧
        (maskTables identityTables 128).red = identityTables.red ∧
        (maskTables identityTables 128).green = identityTables.green ∧
        (maskTables identityTables 128).blue = identityTables.blue ∧
        (∀ (cur : ImgRef) (tabs : Option Tables) (p : Pixel),
          bufferPixel identityTables ops cur tabs p =
            { r := identityTables.red p.r, g := identityTables.green p.g,
              b := identityTables.blue p.b, a := castDATA8 128 } ∧
          ((bufferPixel identityTables ops cur tabs p).a.val : Int) = 128)) ∧
      ((255 : Int) ≤ 128 →
        ops.filter Op.isModifierOp = [] ∧
        (∀ (cur : ImgRef) (tabs : Option Tables) (p : Pixel),
          bufferPixel identityTables ops cur tabs p = identityTables.apply p)) :=
  ⟨by decide, by decide,
    alpha_mask_forces_alpha_only (fun _ => some (40, 30)) identityTables ImageMode.Center "img"
      128 [⟨0, 0, 1920, 1080⟩] 40 30 rfl (by decide) (by decide)⟩

end Hsetroot
